import Mathlib

/-!
Verification of the Solar Rooftop Analyzer application (app.py).

The development shallowly embeds the functions of app.py over lists of unicode
characters: the JSON values handled by the json module, a model of json.dumps
with indent 2 and of json.loads restricted to integer numerals, the Python
string helpers find / rfind / slicing, base64 encoding, and the behaviour of
the analysis action, the result renderer and the startup guard.  The external
chat-completions call is a parameter (its reply text or raised exception), as
is the imaging library encoder inside image_to_base64.
-/

namespace SolarApp

/-! ## JSON data model -/

/-- JSON values as handled by the json module, with numbers restricted to
integers (floating-point numerals are outside this embedding) and strings
represented as lists of unicode scalar values.  Objects keep their fields in
insertion order, as the dictionaries of the host language do. -/
inductive Json where
  | null : Json
  | bool (b : Bool) : Json
  | num (n : Int) : Json
  | str (s : List Char) : Json
  | arr (elems : List Json) : Json
  | obj (fields : List (List Char × Json)) : Json

/-! ## Decimal and hexadecimal digits -/

/-- Decimal digit character for a value below ten. -/
def digitChar : Nat → Char
  | 0 => '0' | 1 => '1' | 2 => '2' | 3 => '3' | 4 => '4'
  | 5 => '5' | 6 => '6' | 7 => '7' | 8 => '8' | _ => '9'

/-- Lower-case hexadecimal digit character for a value below sixteen. -/
def hexDigChar : Nat → Char
  | 0 => '0' | 1 => '1' | 2 => '2' | 3 => '3' | 4 => '4'
  | 5 => '5' | 6 => '6' | 7 => '7' | 8 => '8' | 9 => '9'
  | 10 => 'a' | 11 => 'b' | 12 => 'c' | 13 => 'd' | 14 => 'e' | _ => 'f'

/-- Decimal digits of a natural number, most significant first. -/
def natText (n : Nat) : List Char :=
  if _h : n < 10 then [digitChar n]
  else natText (n / 10) ++ [digitChar (n % 10)]
termination_by n
decreasing_by exact Nat.div_lt_self (by omega) (by omega)

/-- Decimal rendering of an integer, as repr of a Python int. -/
def intText : Int → List Char
  | Int.ofNat m => natText m
  | Int.negSucc m => '-' :: natText (m + 1)

/-! ## String escaping, as json.dumps with ensure_ascii does it -/

/-- Six-character escape for one code unit, backslash u followed by four
lower-case hexadecimal digits. -/
def uEsc (n : Nat) : List Char :=
  ['\\', 'u', hexDigChar (n / 4096 % 16), hexDigChar (n / 256 % 16),
   hexDigChar (n / 16 % 16), hexDigChar (n % 16)]

/-- Escape of a single character: quote and backslash get two-character
escapes, the five control shortcuts theirs, every other character outside
printable ASCII a backslash-u escape (a surrogate pair beyond the basic
plane), and printable ASCII stands for itself. -/
def escapeChar (c : Char) : List Char :=
  if c = '"' then ['\\', '"']
  else if c = '\\' then ['\\', '\\']
  else if c = '\x08' then ['\\', 'b']
  else if c = '\t' then ['\\', 't']
  else if c = '\n' then ['\\', 'n']
  else if c = '\x0c' then ['\\', 'f']
  else if c = '\r' then ['\\', 'r']
  else if c.toNat < 32 || 126 < c.toNat then
    if c.toNat < 65536 then uEsc c.toNat
    else uEsc (55296 + (c.toNat - 65536) / 1024) ++ uEsc (56320 + (c.toNat - 65536) % 1024)
  else [c]

/-- Escape of a whole string body. -/
def escapeStr : List Char → List Char
  | [] => []
  | c :: cs => escapeChar c ++ escapeStr cs

/-- A string rendered with its surrounding quotes. -/
def quoteStr (s : List Char) : List Char := '"' :: (escapeStr s ++ ['"'])

/-! ## json.dumps with indent 2 -/

/-- Newline followed by the indentation of the given nesting level. -/
def nlIndent (level : Nat) : List Char := '\n' :: List.replicate (2 * level) ' '

mutual

/-- Model of json.dumps with indent 2: containers open, put each item on its
own line indented two spaces deeper, and close on a line at their own level;
empty containers print as their two brackets; keys are separated from values
by a colon and one space. -/
def dumpVal : Json → Nat → List Char
  | .null, _ => ['n', 'u', 'l', 'l']
  | .bool true, _ => ['t', 'r', 'u', 'e']
  | .bool false, _ => ['f', 'a', 'l', 's', 'e']
  | .num n, _ => intText n
  | .str s, _ => quoteStr s
  | .arr [], _ => ['[', ']']
  | .arr (x :: xs), level =>
      '[' :: (nlIndent (level + 1) ++ dumpVal x (level + 1) ++ dumpElemsRest xs (level + 1)
        ++ nlIndent level ++ [']'])
  | .obj [], _ => ['\x7b', '\x7d']
  | .obj ((k, v) :: ms), level =>
      '\x7b' :: (nlIndent (level + 1) ++ quoteStr k ++ ':' :: ' ' :: dumpVal v (level + 1)
        ++ dumpMembersRest ms (level + 1) ++ nlIndent level ++ ['\x7d'])

/-- Remaining array elements, each preceded by a comma and a fresh line. -/
def dumpElemsRest : List Json → Nat → List Char
  | [], _ => []
  | x :: xs, level => ',' :: (nlIndent level ++ dumpVal x level ++ dumpElemsRest xs level)

/-- Remaining object members, each preceded by a comma and a fresh line. -/
def dumpMembersRest : List (List Char × Json) → Nat → List Char
  | [], _ => []
  | (k, v) :: ms, level =>
      ',' :: (nlIndent level ++ quoteStr k ++ ':' :: ' ' :: dumpVal v level
        ++ dumpMembersRest ms level)

end

/-- Top-level serialization, as json.dumps of the record with indent 2. -/
def json_dumps_indent2 (j : Json) : List Char := dumpVal j 0

/-! ## Python string helpers -/

/-- Index of the first occurrence of a character, if any. -/
def charIndex (s : List Char) (c : Char) : Option Nat :=
  match s with
  | [] => none
  | x :: xs => if x = c then some 0 else (charIndex xs c).map (· + 1)

/-- Index of the last occurrence of a character, if any. -/
def charIndexLast (s : List Char) (c : Char) : Option Nat :=
  match s with
  | [] => none
  | x :: xs =>
    match charIndexLast xs c with
    | some i => some (i + 1)
    | none => if x = c then some 0 else none

/-- Model of str.find for a single character: first index, or minus one. -/
def pyFind (s : List Char) (c : Char) : Int :=
  match charIndex s c with
  | some i => (i : Int)
  | none => -1

/-- Model of str.rfind for a single character: last index, or minus one. -/
def pyRFind (s : List Char) (c : Char) : Int :=
  match charIndexLast s c with
  | some i => (i : Int)
  | none => -1

/-- Model of Python slicing with two bounds: negative bounds count from the
end, and both bounds are clamped to the string. -/
def pySlice (s : List Char) (start stop : Int) : List Char :=
  let n : Int := (s.length : Int)
  let a : Int := if start < 0 then max (n + start) 0 else min start n
  let b : Int := if stop < 0 then max (n + stop) 0 else min stop n
  (s.take b.toNat).drop a.toNat

/-- Truthiness of an optional string, as Python if applies it: present and
non-empty. -/
def pyTruthyStrOpt : Option (List Char) → Bool
  | none => false
  | some s => !s.isEmpty

/-! ## base64 -/

/-- The standard base64 alphabet. -/
def base64Alphabet : List Char :=
  ("ABCDEFGHIJKLMNOPQRSTUVWXYZabcdefghijklmnopqrstuvwxyz0123456789+/").data

/-- Character for a six-bit value. -/
def sextetChar (n : Nat) : Char := base64Alphabet.getD n 'A'

/-- Six-bit value of an alphabet character, if it is one. -/
def sextetVal (c : Char) : Option Nat := charIndex base64Alphabet c

/-- Model of base64.b64encode on a list of byte values: three bytes become
four alphabet characters, a final group of one or two bytes is completed
with padding. -/
def b64encode : List Nat → List Char
  | [] => []
  | [b0] => [sextetChar (b0 / 4), sextetChar (b0 % 4 * 16), '=', '=']
  | [b0, b1] => [sextetChar (b0 / 4), sextetChar (b0 % 4 * 16 + b1 / 16), sextetChar (b1 % 16 * 4), '=']
  | b0 :: b1 :: b2 :: rest =>
      sextetChar (b0 / 4) :: sextetChar (b0 % 4 * 16 + b1 / 16) ::
      sextetChar (b1 % 16 * 4 + b2 / 64) :: sextetChar (b2 % 64) :: b64encode rest

/-- Standard base64 decoding: the inverse reading of four-character groups,
honouring padding; anything malformed yields none. -/
def b64decode : List Char → Option (List Nat)
  | [] => some []
  | c0 :: c1 :: c2 :: c3 :: rest =>
    (match sextetVal c0, sextetVal c1 with
    | some v0, some v1 =>
      if c2 = '=' then
        if c3 = '=' && rest.isEmpty then some [v0 * 4 + v1 / 16] else none
      else
        match sextetVal c2 with
        | some v2 =>
          if c3 = '=' then
            if rest.isEmpty then some [v0 * 4 + v1 / 16, v1 % 16 * 16 + v2 / 4] else none
          else
            match sextetVal c3, b64decode rest with
            | some v3, some tail =>
                some ((v0 * 4 + v1 / 16) :: (v1 % 16 * 16 + v2 / 4) :: (v2 % 4 * 64 + v3) :: tail)
            | _, _ => none
        | none => none
    | _, _ => none)
  | _ => none

/-- Model of image_to_base64: the bitmap is saved to an in-memory buffer as
compressed JPEG bytes by the imaging library, a parameter of the embedding,
and the buffer contents are base64-encoded and decoded to text. -/
def image_to_base64 {Image : Type} (saveJpeg : Image → List Nat) (image : Image) : List Char :=
  b64encode (saveJpeg image)

/-! ## json.loads -/

/-- The four whitespace characters the JSON grammar skips between tokens:
space, tab, newline and carriage return. -/
def isJsonWs (c : Char) : Bool :=
  c.toNat = 32 || c.toNat = 9 || c.toNat = 10 || c.toNat = 13

/-- Drop leading JSON whitespace. -/
def skipWs : List Char → List Char
  | [] => []
  | c :: cs => if isJsonWs c then skipWs cs else c :: cs

/-- Decimal digit test. -/
def isDigitChar (c : Char) : Bool := 48 ≤ c.toNat && c.toNat ≤ 57

/-- Value of a decimal digit character. -/
def digitVal (c : Char) : Nat := c.toNat - 48

/-- Greedy scan of decimal digits, accumulating their value. -/
def digitsLoop (acc : Nat) : List Char → Nat × List Char
  | [] => (acc, [])
  | c :: cs => if isDigitChar c then digitsLoop (acc * 10 + digitVal c) cs else (acc, c :: cs)

/-- Unsigned integer numeral of the JSON grammar: zero alone, or a nonzero
digit followed by a greedy run of digits.  A numeral with a leading zero
stops after the zero, and what follows fails the surrounding parse, as the
number grammar of the json module has it. -/
def parseUIntTok (s : List Char) : Option (Nat × List Char) :=
  match s with
  | [] => none
  | c :: cs =>
    if c = '0' then some (0, cs)
    else if isDigitChar c then some (digitsLoop 0 (c :: cs))
    else none

/-- Optionally signed integer numeral. -/
def parseIntTok (s : List Char) : Option (Int × List Char) :=
  match s with
  | [] => none
  | c :: cs =>
    if c = '-' then (parseUIntTok cs).map (fun p => (-(p.1 : Int), p.2))
    else (parseUIntTok (c :: cs)).map (fun p => ((p.1 : Int), p.2))

/-- Unescaped value of a single-character escape. -/
def escCharOf : Char → Option Char
  | '"' => some '"'
  | '\\' => some '\\'
  | '/' => some '/'
  | 'b' => some '\x08'
  | 'f' => some '\x0c'
  | 'n' => some '\n'
  | 'r' => some '\r'
  | 't' => some '\t'
  | _ => none

/-- Value of one hexadecimal digit character, either case. -/
def hexVal (c : Char) : Option Nat :=
  if isDigitChar c then some (digitVal c)
  else if 'a' ≤ c && c ≤ 'f' then some (c.toNat - 87)
  else if 'A' ≤ c && c ≤ 'F' then some (c.toNat - 55)
  else none

/-- Value of four hexadecimal digit characters. -/
def hex4Val (a b c d : Char) : Option Nat :=
  match hexVal a, hexVal b, hexVal c, hexVal d with
  | some x, some y, some z, some w => some (x * 4096 + y * 256 + z * 16 + w)
  | _, _, _, _ => none

/-- Decode one escape sequence after its backslash: a backslash-u escape
with four hexadecimal digits, recombining a valid surrogate pair and
rejecting an unpaired surrogate, or one short escape through the table. -/
def readEscape (rest : List Char) : Option (Char × List Char) :=
  match rest with
  | [] => none
  | e :: rest1 =>
    if e = 'u' then
      match rest1 with
      | a :: b :: k :: d :: rest2 =>
        (match hex4Val a b k d with
        | none => none
        | some n =>
          if n < 55296 || 57344 ≤ n then some (Char.ofNat n, rest2)
          else if n < 56320 then
            match rest2 with
            | x :: y :: rest3 =>
              if x = '\\' && y = 'u' then
                match rest3 with
                | e2 :: f2 :: g2 :: i2 :: rest4 =>
                  (match hex4Val e2 f2 g2 i2 with
                  | none => none
                  | some m =>
                    if 56320 ≤ m && m < 57344 then
                      some (Char.ofNat (65536 + (n - 55296) * 1024 + (m - 56320)), rest4)
                    else none)
                | _ => none
              else none
            | _ => none
          else none)
      | _ => none
    else
      match escCharOf e with
      | some c2 => some (c2, rest1)
      | none => none

/-- Whatever an escape consumes, what remains is no longer than its input. -/
theorem readEscape_shrinks (rest : List Char) (c2 : Char) (rest2 : List Char)
    (h : readEscape rest = some (c2, rest2)) : rest2.length ≤ rest.length := by
  unfold readEscape at h
  repeat' split at h
  all_goals try exact Option.noConfusion h
  all_goals simp only [Option.some.injEq, Prod.mk.injEq] at h
  all_goals obtain ⟨h1, h2⟩ := h
  all_goals subst h2
  all_goals simp
  all_goals omega

/-- Body of a JSON string after its opening quote: raw characters up to the
closing quote, with escapes decoded through readEscape; an unterminated
string or a raw control character yields none.  The fuel argument bounds
recursion and is in excess at every use, one unit covering at least one
consumed character. -/
def parseStrBody (fuel : Nat) (s : List Char) : Option (List Char × List Char) :=
  match fuel, s with
  | 0, _ => none
  | _ + 1, [] => none
  | fuel + 1, c :: rest =>
    if c = '"' then some ([], rest)
    else if c = '\\' then
      match readEscape rest with
      | some (c2, rest2) => (parseStrBody fuel rest2).map (fun p => (c2 :: p.1, p.2))
      | none => none
    else if c.toNat < 32 then none
    else (parseStrBody fuel rest).map (fun p => (c :: p.1, p.2))

/-- Insertion into an association list with the update rule of the host
dictionaries: an existing key keeps its position and takes the new value, a
fresh key goes to the end. -/
def insertKey (acc : List (List Char × Json)) (k : List Char) (v : Json) :
    List (List Char × Json) :=
  match acc with
  | [] => [(k, v)]
  | (k0, v0) :: rest => if k0 = k then (k0, v) :: rest else (k0, v0) :: insertKey rest k v

mutual

/-- Model of the value scanner of json.loads: skip whitespace, then dispatch
on the first character to an object, an array, a string, one of the three
literals, or an integer numeral.  The fuel argument bounds recursion and is
in excess at every use. -/
def parseVal (fuel : Nat) (s : List Char) : Option (Json × List Char) :=
  match fuel with
  | 0 => none
  | fuel + 1 =>
    match skipWs s with
    | [] => none
    | c :: rest =>
      if c = '\x7b' then
        match skipWs rest with
        | [] => none
        | c2 :: r2 => if c2 = '\x7d' then some (Json.obj [], r2) else parseMembers fuel (c2 :: r2) []
      else if c = '[' then
        match skipWs rest with
        | [] => none
        | c2 :: r2 => if c2 = ']' then some (Json.arr [], r2) else parseElems fuel (c2 :: r2) []
      else if c = '"' then
        (parseStrBody fuel rest).map (fun p => (Json.str p.1, p.2))
      else if c = 't' then
        match rest with
        | 'r' :: 'u' :: 'e' :: r => some (Json.bool true, r)
        | _ => none
      else if c = 'f' then
        match rest with
        | 'a' :: 'l' :: 's' :: 'e' :: r => some (Json.bool false, r)
        | _ => none
      else if c = 'n' then
        match rest with
        | 'u' :: 'l' :: 'l' :: r => some (Json.null, r)
        | _ => none
      else
        (parseIntTok (c :: rest)).map (fun p => (Json.num p.1, p.2))

/-- Members of an object after its opening brace and any whitespace: a quoted
key, a colon, a value, then either a comma and further members or the closing
brace. -/
def parseMembers (fuel : Nat) (s : List Char) (acc : List (List Char × Json)) :
    Option (Json × List Char) :=
  match fuel with
  | 0 => none
  | fuel + 1 =>
    match s with
    | '"' :: rest =>
      match parseStrBody fuel rest with
      | none => none
      | some (key, r1) =>
        match skipWs r1 with
        | ':' :: r2 =>
          match parseVal fuel r2 with
          | none => none
          | some (v, r3) =>
            match skipWs r3 with
            | ',' :: r4 => parseMembers fuel (skipWs r4) (insertKey acc key v)
            | '\x7d' :: r4 => some (Json.obj (insertKey acc key v), r4)
            | _ => none
        | _ => none
    | _ => none

/-- Elements of an array after its opening bracket: a value, then either a
comma and further elements or the closing bracket. -/
def parseElems (fuel : Nat) (s : List Char) (acc : List Json) :
    Option (Json × List Char) :=
  match fuel with
  | 0 => none
  | fuel + 1 =>
    match parseVal fuel s with
    | none => none
    | some (v, r1) =>
      match skipWs r1 with
      | ',' :: r2 => parseElems fuel (skipWs r2) (acc ++ [v])
      | ']' :: r2 => some (Json.arr (acc ++ [v]), r2)
      | _ => none

end

/-- Model of json.loads: scan one value with ample fuel and require the
remaining text to be whitespace. -/
def json_loads (s : List Char) : Option Json :=
  match parseVal (s.length + 1) s with
  | some (j, rest) => if (skipWs rest).isEmpty then some j else none
  | none => none

/-! ## The analysis client and response handling of app.py -/

/-- Behaviour of the external chat-completions call on one invocation: the
reply text it returns, or the message of the exception it raises. -/
inductive ApiOutcome where
  | ok (text : List Char) : ApiOutcome
  | exn (message : List Char) : ApiOutcome

/-- Error prefix of the parse failure branch. -/
def errPrefixParse : List Char := ("Could not parse AI response as JSON: ").data

/-- Error prefix of the outer exception handler. -/
def errPrefixApi : List Char := ("Error analyzing image: ").data

/-- Span the Response Parser slices out of the reply: from the first open
brace to the last close brace, via find, rfind and a Python slice. -/
def extractSpan (analysis_text : List Char) : List Char :=
  pySlice analysis_text (pyFind analysis_text '\x7b') (pyRFind analysis_text '\x7d' + 1)

/-- Model of analyze_rooftop_with_ai: a raised exception is caught and turned
into a prefixed error string; a reply has its brace span sliced out and
parsed, yielding the record on success and a prefixed error carrying the
whole reply text on parse failure. -/
def analyze_rooftop_with_ai (call : ApiOutcome) : Option Json × Option (List Char) :=
  match call with
  | .exn e => (none, some (errPrefixApi ++ e))
  | .ok analysis_text =>
    match json_loads (extractSpan analysis_text) with
    | some analysis => (some analysis, none)
    | none => (none, some (errPrefixParse ++ analysis_text))

/-- What the analyse button shows the user. -/
inductive UiOutcome where
  | errorShown (message : List Char) : UiOutcome
  | successShown : UiOutcome

/-- Model of the analyse button handler in main: on a truthy error the error
is shown and the session slot is untouched; otherwise success is shown and
the slot is overwritten with the new analysis. -/
def runAnalysisAction (sessionAnalysis : Option Json) (call : ApiOutcome) :
    Option Json × UiOutcome :=
  match analyze_rooftop_with_ai call with
  | (analysis, error) =>
    if pyTruthyStrOpt error then
      (sessionAnalysis, UiOutcome.errorShown (error.getD []))
    else
      (analysis, UiOutcome.successShown)

/-! ## Startup guard -/

/-- Outcome of the module entry point. -/
inductive StartupOutcome where
  | halted (errorShown : List Char) : StartupOutcome
  | served : StartupOutcome

/-- The startup error message. -/
def missingKeyError : List Char := ("Please set your OPENROUTER_API_KEY in the .env file").data

/-- Model of the module guard: a missing or empty OPENROUTER_API_KEY shows an
error and stops before main renders anything; otherwise the page is served. -/
def main_entry (apiKeyEnv : Option (List Char)) : StartupOutcome :=
  if pyTruthyStrOpt apiKeyEnv then StartupOutcome.served
  else StartupOutcome.halted missingKeyError

/-! ## Download report -/

/-- Model of the download action in main: the stored analysis re-serialized
with json.dumps at indent 2, no envelope added. -/
def downloadReport (analysis : Json) : List Char := json_dumps_indent2 analysis

/-! ## Key uniqueness, the invariant host dictionaries guarantee -/

/-- Membership of a key in a key list. -/
def keyMem (ks : List (List Char)) (k : List Char) : Bool :=
  match ks with
  | [] => false
  | x :: xs => if x = k then true else keyMem xs k

/-- No key occurs twice in the list. -/
def noDupKeys : List (List Char) → Bool
  | [] => true
  | k :: ks => !(keyMem ks k) && noDupKeys ks

mutual

/-- Well-formedness that host dictionaries guarantee by construction: every
object of the value holds each key at most once. -/
def jsonWf : Json → Bool
  | .null => true
  | .bool _ => true
  | .num _ => true
  | .str _ => true
  | .arr xs => jsonWfElems xs
  | .obj ms => noDupKeys (ms.map Prod.fst) && jsonWfMembers ms

/-- Well-formedness of each element of an array. -/
def jsonWfElems : List Json → Bool
  | [] => true
  | x :: xs => jsonWf x && jsonWfElems xs

/-- Well-formedness of each member value of an object. -/
def jsonWfMembers : List (List Char × Json) → Bool
  | [] => true
  | kv :: ms => jsonWf kv.2 && jsonWfMembers ms

end

/-! ## The result presenter of app.py -/

/-- How display_analysis_results uses a field: interpolated plainly, through
the thousands-separator format specifier, or iterated with enumerate. -/
inductive FieldUse where
  | plain : FieldUse
  | thousands : FieldUse
  | enumerated : FieldUse

/-- The ways a render step can raise: a failed key lookup on the record, a
format specifier applied to a value that does not support it, or enumerate
over a value that is not iterable. -/
inductive RenderError where
  | keyLookup (key : List Char) : RenderError
  | badFormat (key : List Char) : RenderError
  | notIterable (key : List Char) : RenderError

/-- One rendered unit of output. -/
inductive DisplayItem where
  | shown (key : List Char) (value : Json) : DisplayItem
  | listed (key : List Char) (position : Nat) (value : Json) : DisplayItem

/-- The fields display_analysis_results reads, in the order its statements
run, with the formatting each interpolation applies. -/
def displayFields : List (List Char × FieldUse) :=
  [(("solar_suitability_score").data, FieldUse.plain),
   (("estimated_panel_capacity_kw").data, FieldUse.plain),
   (("annual_energy_production_kwh").data, FieldUse.thousands),
   (("payback_period_years").data, FieldUse.plain),
   (("estimated_installation_cost").data, FieldUse.thousands),
   (("annual_savings").data, FieldUse.thousands),
   (("rooftop_area_sqft").data, FieldUse.thousands),
   (("roof_orientation").data, FieldUse.plain),
   (("key_observations").data, FieldUse.enumerated),
   (("recommendations").data, FieldUse.enumerated)]

/-- The thousands-separator format specifier accepts integers, booleans
included; strings, null, arrays and objects raise. -/
def thousandsFormatOk : Json → Bool
  | .num _ => true
  | .bool _ => true
  | _ => false

/-- Iteration as the host language has it: arrays yield their elements,
strings their characters, objects their keys; the rest raise. -/
def pyIterate : Json → Option (List Json)
  | .arr xs => some xs
  | .str s => some (s.map fun c => Json.str [c])
  | .obj fs => some (fs.map fun kv => Json.str kv.1)
  | _ => none

/-- One statement of display_analysis_results: look the key up in the record,
then either interpolate it, push it through the thousands separator, or
enumerate it from one. -/
def renderField (analysis : List (List Char × Json)) (key : List Char) (use : FieldUse) :
    Except RenderError (List DisplayItem) :=
  match List.lookup key analysis with
  | none => Except.error (RenderError.keyLookup key)
  | some v =>
    match use with
    | FieldUse.plain => Except.ok [DisplayItem.shown key v]
    | FieldUse.thousands =>
      if thousandsFormatOk v then Except.ok [DisplayItem.shown key v]
      else Except.error (RenderError.badFormat key)
    | FieldUse.enumerated =>
      match pyIterate v with
      | some xs => Except.ok (xs.enum.map fun p => DisplayItem.listed key (p.1 + 1) p.2)
      | none => Except.error (RenderError.notIterable key)

/-- Run the render statements in order; the first raise aborts the rest. -/
def renderFields (analysis : List (List Char × Json)) :
    List (List Char × FieldUse) → Except RenderError (List DisplayItem)
  | [] => Except.ok []
  | (key, use) :: rest =>
    match renderField analysis key use with
    | Except.error e => Except.error e
    | Except.ok items =>
      match renderFields analysis rest with
      | Except.error e => Except.error e
      | Except.ok more => Except.ok (items ++ more)

/-- Model of display_analysis_results on the record the parse produced. -/
def display_analysis_results (analysis : List (List Char × Json)) :
    Except RenderError (List DisplayItem) :=
  renderFields analysis displayFields

/-! ## The prompt builder -/

/-- Model of get_solar_analysis_prompt, the constant instruction string of
app.py reproduced verbatim. -/
def get_solar_analysis_prompt (_u : Unit) : List Char :=
  ("\n" ++
   "    You are a solar energy expert analyzing a rooftop satellite/aerial image for solar panel installation potential.\n" ++
   "    \n" ++
   "    Analyze the image and provide a basic assessment in the following JSON format:\n" ++
   "    \n" ++
   "    \x7b\n" ++
   "        \"rooftop_area_sqft\": <estimated usable rooftop area in square feet>,\n" ++
   "        \"solar_suitability_score\": <score from 1-10, where 10 is excellent>,\n" ++
   "        \"roof_orientation\": \"<primary roof direction: North/South/East/West>\",\n" ++
   "        \"estimated_panel_capacity_kw\": <total solar capacity in kilowatts>,\n" ++
   "        \"annual_energy_production_kwh\": <estimated annual energy production>,\n" ++
   "        \"estimated_installation_cost\": <rough cost estimate in USD>,\n" ++
   "        \"annual_savings\": <estimated annual electricity bill savings>,\n" ++
   "        \"payback_period_years\": <estimated payback period>,\n" ++
   "        \"key_observations\": [\n" ++
   "            \"<observation 1>\",\n" ++
   "            \"<observation 2>\"\n" ++
   "        ],\n" ++
   "        \"recommendations\": [\n" ++
   "            \"<recommendation 1>\",\n" ++
   "            \"<recommendation 2>\"\n" ++
   "        ]\n" ++
   "    \x7d\n" ++
   "    \n" ++
   "    Base your analysis on these solar industry standards:\n" ++
   "    - Average solar panel: 400W, 21 sq ft\n" ++
   "    - Typical installation cost: $3-4 per watt\n" ++
   "    - Average electricity rate: $0.13/kWh\n" ++
   "    - Solar panel efficiency: 20-22%\n" ++
   "    - Useful roof area: 60-70% of total roof area\n" ++
   "    \n" ++
   "    Only return the JSON, no additional text.\n" ++
   "    ").data

/-- The named output fields of the JSON format block of the prompt, in the
order the prompt lists them. -/
def promptOutputFields : List (List Char) :=
  [("rooftop_area_sqft").data, ("solar_suitability_score").data, ("roof_orientation").data,
   ("estimated_panel_capacity_kw").data, ("annual_energy_production_kwh").data,
   ("estimated_installation_cost").data, ("annual_savings").data,
   ("payback_period_years").data, ("key_observations").data, ("recommendations").data]

/-- Substring test on character lists. -/
def containsSub (haystack needle : List Char) : Bool :=
  match haystack with
  | [] => needle.isEmpty
  | c :: t => needle.isPrefixOf (c :: t) || containsSub t needle

/-- Every named output field occurs verbatim in the prompt. -/
def promptContainsAllFields : Bool :=
  promptOutputFields.all (containsSub (get_solar_analysis_prompt ()))

/-! ## Helper lemmas -/

/-- Messages built on the exception prefix are never empty. -/
theorem errPrefixApi_append_not_empty (e : List Char) : (errPrefixApi ++ e).isEmpty = false := rfl

/-- Messages built on the parse-failure prefix are never empty. -/
theorem errPrefixParse_append_not_empty (e : List Char) :
    (errPrefixParse ++ e).isEmpty = false := rfl

/-! ## Claims about the analysis action -/

/-- C10: whatever the external call does, returning any text or raising any
exception, analyze_rooftop_with_ai returns a pair with exactly one component
set: a record with no error, or no record with an error message. -/
theorem analyze_returns_exactly_one (call : ApiOutcome) :
    (∃ j, analyze_rooftop_with_ai call = (some j, none)) ∨
    (∃ e, analyze_rooftop_with_ai call = (none, some e)) := by
  cases call with
  | exn e => exact Or.inr ⟨errPrefixApi ++ e, rfl⟩
  | ok t =>
    cases h : json_loads (extractSpan t) with
    | some j => exact Or.inl ⟨j, by simp [analyze_rooftop_with_ai, h]⟩
    | none => exact Or.inr ⟨errPrefixParse ++ t, by simp [analyze_rooftop_with_ai, h]⟩

/-- C2: an exception raised by the external call is caught and turned into a
descriptive error value rather than a crash, and the session slot is left
exactly as it was by the failed action. -/
theorem exn_caught_and_session_unchanged (sessionAnalysis : Option Json) (e : List Char) :
    analyze_rooftop_with_ai (ApiOutcome.exn e) = (none, some (errPrefixApi ++ e)) ∧
    runAnalysisAction sessionAnalysis (ApiOutcome.exn e) =
      (sessionAnalysis, UiOutcome.errorShown (errPrefixApi ++ e)) := by
  refine ⟨rfl, ?_⟩
  simp [runAnalysisAction, analyze_rooftop_with_ai, pyTruthyStrOpt,
    errPrefixApi_append_not_empty]

/-- Stored result of an earlier successful analysis, the starting state of
the retention counterexample. -/
def cexStoredResult : Json := Json.obj [(("solar_suitability_score").data, Json.num 8)]

/-- C7 counterexample: an analysis action that fails while the session slot
holds a result from an earlier success leaves that result in the slot, so
after the failed action the store still holds an AnalysisResult for display,
against the claim that none is retained. -/
theorem failed_action_still_holds_result :
    runAnalysisAction (some cexStoredResult) (ApiOutcome.exn (("boom").data)) =
      (some cexStoredResult, UiOutcome.errorShown (errPrefixApi ++ ("boom").data)) ∧
    (runAnalysisAction (some cexStoredResult) (ApiOutcome.exn (("boom").data))).1 ≠ none :=
  ⟨rfl, fun h => Option.noConfusion h⟩

/-- C7 amended: whenever an analysis attempt fails, the error is shown and
the session slot is left unchanged: it still holds nothing when nothing was
stored before, and it retains the previous result otherwise. -/
theorem failed_action_leaves_session_unchanged (sessionAnalysis : Option Json)
    (call : ApiOutcome) (e : List Char)
    (hfail : (analyze_rooftop_with_ai call).2 = some e) :
    runAnalysisAction sessionAnalysis call = (sessionAnalysis, UiOutcome.errorShown e) := by
  have hne : e.isEmpty = false := by
    cases call with
    | exn m =>
      have hred : (analyze_rooftop_with_ai (ApiOutcome.exn m)).2 = some (errPrefixApi ++ m) := rfl
      rw [hred] at hfail
      injection hfail with h
      rw [← h]
      exact errPrefixApi_append_not_empty m
    | ok t =>
      cases hjson : json_loads (extractSpan t) with
      | some j => simp [analyze_rooftop_with_ai, hjson] at hfail
      | none =>
        simp [analyze_rooftop_with_ai, hjson] at hfail
        rw [← hfail]
        exact errPrefixParse_append_not_empty t
  cases hp : analyze_rooftop_with_ai call with
  | mk a err =>
    rw [hp] at hfail
    simp only at hfail
    subst hfail
    simp [runAnalysisAction, hp, pyTruthyStrOpt, hne]

/-- Witness for the amended retention claim at a concrete failing call. -/
theorem failed_action_leaves_session_unchanged_witness :
    runAnalysisAction none (ApiOutcome.exn (("x").data)) =
      (none, UiOutcome.errorShown (errPrefixApi ++ ("x").data)) :=
  failed_action_leaves_session_unchanged none (ApiOutcome.exn (("x").data))
    (errPrefixApi ++ ("x").data) rfl

/-! ## Claim about the startup guard -/

/-- C8: with the credential absent from the environment the program shows
the configuration error and halts; the main page is never rendered. -/
theorem missing_api_key_halts_before_serving :
    main_entry none = StartupOutcome.halted missingKeyError ∧
    main_entry none ≠ StartupOutcome.served :=
  ⟨rfl, fun h => StartupOutcome.noConfusion h⟩

/-! ## Claims about the prompt builder -/

set_option maxRecDepth 40000 in
/-- C5 counterexample: the prompt as returned names ten distinct output
fields, each occurring verbatim, not the eleven the claim counts. -/
theorem prompt_names_ten_fields :
    promptOutputFields.length = 10 ∧ promptOutputFields.Nodup ∧
    promptContainsAllFields = true :=
  ⟨rfl, by decide, rfl⟩

set_option maxRecDepth 40000 in
/-- C5 amended: the Prompt Builder is a pure function of no inputs returning
the same constant string on every call, and that string contains all ten
named output fields verbatim. -/
theorem prompt_constant_with_ten_fields :
    (∀ u v : Unit, get_solar_analysis_prompt u = get_solar_analysis_prompt v) ∧
    promptOutputFields.length = 10 ∧ promptContainsAllFields = true :=
  ⟨fun _ _ => rfl, rfl, rfl⟩

/-! ## Claims about the result presenter -/

/-- A run of render statements over a record missing one of the keys it
reads cannot finish: some statement raises. -/
theorem renderFields_error_of_missing (analysis : List (List Char × Json)) :
    ∀ steps : List (List Char × FieldUse),
      (steps.any fun p => (List.lookup p.1 analysis).isNone) = true →
      ∃ e, renderFields analysis steps = Except.error e := by
  intro steps
  induction steps with
  | nil => simp
  | cons q rest ih =>
    intro h
    obtain ⟨key, use⟩ := q
    cases hr : renderField analysis key use with
    | error e => exact ⟨e, by simp [renderFields, hr]⟩
    | ok items =>
      have hk : (List.lookup key analysis).isNone = false := by
        cases hl : List.lookup key analysis with
        | none => rw [renderField, hl] at hr; cases hr
        | some v => simp
      simp only [List.any_cons, Bool.or_eq_true] at h
      rcases h with h | h
      · rw [hk] at h; cases h
      · obtain ⟨e, he⟩ := ih h
        refine ⟨e, ?_⟩
        simp [renderFields, hr, he]

/-- Statements that render successfully pass any later raise through. -/
theorem renderFields_skips_ok_prefix (analysis : List (List Char × Json))
    (pre : List (List Char × FieldUse))
    (hok : ∀ p ∈ pre, ∃ items, renderField analysis p.1 p.2 = Except.ok items)
    (rest : List (List Char × FieldUse)) (e : RenderError)
    (hrest : renderFields analysis rest = Except.error e) :
    renderFields analysis (pre ++ rest) = Except.error e := by
  induction pre with
  | nil => simpa using hrest
  | cons q pre ih =>
    obtain ⟨items, hq⟩ := hok q (by simp)
    have hrec := ih (fun p hp => hok p (by simp [hp]))
    obtain ⟨key, use⟩ := q
    simp only [List.cons_append, renderFields, List.append_eq]
    rw [hq, hrec]

/-- C9 amended: rendering a parsed record that is missing any one of the
expected keys always fails rather than completing a display, and the failure
is the key-lookup error of the first missing key provided every statement
before it renders without raising; a thousands-separator or iteration error
on an earlier well-present field preempts the key-lookup error otherwise. -/
theorem missing_key_fails_render :
    (∀ analysis : List (List Char × Json),
      (displayFields.any fun p => (List.lookup p.1 analysis).isNone) = true →
      ∃ e, display_analysis_results analysis = Except.error e) ∧
    (∀ (analysis : List (List Char × Json)) (pre rest : List (List Char × FieldUse))
        (key : List Char) (use : FieldUse),
      displayFields = pre ++ (key, use) :: rest →
      (∀ p ∈ pre, ∃ items, renderField analysis p.1 p.2 = Except.ok items) →
      List.lookup key analysis = none →
      display_analysis_results analysis = Except.error (RenderError.keyLookup key)) := by
  constructor
  · intro analysis h
    exact renderFields_error_of_missing analysis displayFields h
  · intro analysis pre rest key use hsplit hok hmiss
    unfold display_analysis_results
    rw [hsplit]
    apply renderFields_skips_ok_prefix analysis pre hok
    simp [renderFields, renderField, hmiss]

/-- Witness: the empty record misses the first key read and the render fails
with exactly that key-lookup error. -/
theorem missing_key_fails_render_witness :
    display_analysis_results [] =
      Except.error (RenderError.keyLookup (("solar_suitability_score").data)) :=
  missing_key_fails_render.2 [] [] (displayFields.tail) (("solar_suitability_score").data)
    FieldUse.plain rfl (by simp) rfl

/-- Reply text whose parse yields the record of the render counterexample. -/
def cexRenderText : List Char :=
  ("\x7b\"solar_suitability_score\": 8, \"estimated_panel_capacity_kw\": 5, \"annual_energy_production_kwh\": \"lots\"\x7d").data

/-- The parsed record of the render counterexample: the first two fields are
fine, the third is a string, and every later expected key is missing. -/
def cexRenderRecord : List (List Char × Json) :=
  [(("solar_suitability_score").data, Json.num 8),
   (("estimated_panel_capacity_kw").data, Json.num 5),
   (("annual_energy_production_kwh").data, Json.str (("lots").data))]

/-- The counterexample record is missing at least one expected key. -/
def cexRenderMissingSome : Bool :=
  displayFields.any fun p => (List.lookup p.1 cexRenderRecord).isNone

set_option maxRecDepth 100000 in
/-- C9 counterexample: a parseable record that is missing expected keys but
carries a string where the annual-production metric applies the thousands
separator fails the render with a format error, not a key-lookup error. -/
theorem render_error_not_key_lookup :
    json_loads cexRenderText = some (Json.obj cexRenderRecord) ∧
    cexRenderMissingSome = true ∧
    display_analysis_results cexRenderRecord =
      Except.error (RenderError.badFormat (("annual_energy_production_kwh").data)) :=
  ⟨rfl, rfl, rfl⟩

/-! ## Claims about the response span -/

/-- A character absent from a string has no first index. -/
theorem charIndex_eq_none (s : List Char) (c : Char) (h : c ∉ s) : charIndex s c = none := by
  induction s with
  | nil => rfl
  | cons x xs ih =>
    simp only [List.mem_cons, not_or] at h
    simp only [charIndex]
    rw [if_neg (fun he => h.1 he.symm), ih h.2]
    rfl

/-- A character absent from a string has no last index. -/
theorem charIndexLast_eq_none (s : List Char) (c : Char) (h : c ∉ s) :
    charIndexLast s c = none := by
  induction s with
  | nil => rfl
  | cons x xs ih =>
    simp only [List.mem_cons, not_or] at h
    simp only [charIndexLast, ih h.2]
    rw [if_neg (fun he => h.1 he.symm)]

/-- The last index is inside the string. -/
theorem charIndexLast_lt_length (s : List Char) (c : Char) (i : Nat)
    (h : charIndexLast s c = some i) : i < s.length := by
  induction s generalizing i with
  | nil => cases h
  | cons x xs ih =>
    simp only [charIndexLast] at h
    cases hx : charIndexLast xs c with
    | some k =>
      rw [hx] at h
      injection h with h
      have := ih k hx
      simp only [List.length_cons]
      omega
    | none =>
      rw [hx] at h
      by_cases hxc : x = c
      · rw [if_pos hxc] at h
        injection h with h
        simp only [List.length_cons]
        omega
      · rw [if_neg hxc] at h
        cases h

/-- When the last index is the final position, the string ends with the
character. -/
theorem charIndexLast_last_decomp (s : List Char) (c : Char) (i : Nat)
    (h : charIndexLast s c = some i) (hlen : i + 1 = s.length) :
    ∃ t, s = t ++ [c] ∧ t.length = i := by
  induction s generalizing i with
  | nil => cases h
  | cons x xs ih =>
    simp only [charIndexLast] at h
    cases hx : charIndexLast xs c with
    | some k =>
      rw [hx] at h
      injection h with h
      subst h
      simp only [List.length_cons] at hlen
      obtain ⟨t, ht, htl⟩ := ih k hx (by omega)
      exact ⟨x :: t, by rw [ht]; rfl, by simp [htl]⟩
    | none =>
      rw [hx] at h
      by_cases hxc : x = c
      · rw [if_pos hxc] at h
        injection h with h
        subst h
        simp only [List.length_cons] at hlen
        have hxs : xs = [] := List.length_eq_zero.mp (by omega)
        exact ⟨[], by simp [hxs, hxc], rfl⟩
      · rw [if_neg hxc] at h
        cases h

/-- A slice that stops at zero is empty. -/
theorem pySlice_stop_zero (s : List Char) (start : Int) : pySlice s start 0 = [] := by
  simp only [pySlice]
  rw [if_neg (by omega : ¬ (0 : Int) < 0)]
  rw [min_eq_left (by exact_mod_cast Nat.zero_le _ : (0 : Int) ≤ (s.length : Int))]
  simp

/-- A slice from minus one up to a stop inside the string keeps at most the
final character. -/
theorem pySlice_last_window (s : List Char) (p : Nat) (hp : p < s.length) :
    pySlice s (-1) ((p : Int) + 1) = (s.take (p + 1)).drop (s.length - 1) := by
  simp only [pySlice]
  rw [if_pos (by omega : (-1 : Int) < 0)]
  rw [if_neg (by omega : ¬ ((p : Int) + 1 < 0))]
  have h1 : max ((s.length : Int) + -1) 0 = (s.length : Int) - 1 := by omega
  have h2 : min ((p : Int) + 1) ((s.length : Int)) = (p : Int) + 1 := by omega
  rw [h1, h2]
  have h3 : ((s.length : Int) - 1).toNat = s.length - 1 := by omega
  have h4 : ((p : Int) + 1).toNat = p + 1 := by omega
  rw [h3, h4]

/-- C3: a reply with no open brace fails the parse, no record is returned,
and the error value carries the original reply text verbatim. -/
theorem no_brace_reply_errors (text : List Char) (h : '\x7b' ∉ text) :
    analyze_rooftop_with_ai (ApiOutcome.ok text) = (none, some (errPrefixParse ++ text)) := by
  have hspan : json_loads (extractSpan text) = none := by
    rw [extractSpan, pyFind, charIndex_eq_none text _ h]
    cases hlast : charIndexLast text '\x7d' with
    | none =>
      rw [pyRFind, hlast]
      rw [show (-1 : Int) + 1 = 0 from by omega, pySlice_stop_zero]
      rfl
    | some p =>
      rw [pyRFind, hlast]
      have hp := charIndexLast_lt_length text _ p hlast
      rw [pySlice_last_window text p hp]
      by_cases hend : p + 1 = text.length
      · obtain ⟨t, hteq, htl⟩ := charIndexLast_last_decomp text _ p hlast hend
        rw [hteq]
        have hlen : (t ++ ['\x7d']).length = p + 1 := by simp [htl]
        rw [show (t ++ ['\x7d']).take (p + 1) = t ++ ['\x7d'] from by
          rw [← hlen]; exact List.take_length _]
        rw [show (t ++ ['\x7d']).length - 1 = t.length from by simp [htl]]
        rw [List.drop_left]
        rfl
      · rw [show (text.take (p + 1)).drop (text.length - 1) = [] from by
          apply List.drop_eq_nil_of_le
          rw [List.length_take]
          omega]
        rfl
  simp [analyze_rooftop_with_ai, hspan]

/-- Witness: a concrete braceless reply yields exactly the prefixed error and
no record. -/
theorem no_brace_reply_errors_witness :
    analyze_rooftop_with_ai (ApiOutcome.ok (("no json here").data)) =
      (none, some (errPrefixParse ++ ("no json here").data)) :=
  no_brace_reply_errors (("no json here").data) (by decide)

/-! ## Claim about the image ingestor -/

/-- The base64 alphabet inverts its encoding on every six-bit value. -/
theorem sextetVal_sextetChar (v : Nat) (h : v < 64) : sextetVal (sextetChar v) = some v := by
  interval_cases v <;> rfl

/-- No six-bit value encodes to the padding character. -/
theorem sextetChar_ne_pad (v : Nat) (h : v < 64) : sextetChar v ≠ '=' := by
  intro he
  have hv := sextetVal_sextetChar v h
  rw [he] at hv
  exact Option.noConfusion hv

/-- Decoding inverts encoding on lists of byte values. -/
theorem b64decode_b64encode : ∀ bs : List Nat, (∀ b ∈ bs, b < 256) →
    b64decode (b64encode bs) = some bs
  | [], _ => rfl
  | [b0], h => by
    have hb0 : b0 < 256 := h b0 (by simp)
    have h1 := sextetVal_sextetChar (b0 / 4) (by omega)
    have h2 := sextetVal_sextetChar (b0 % 4 * 16) (by omega)
    show b64decode [sextetChar (b0 / 4), sextetChar (b0 % 4 * 16), '=', '='] = some [b0]
    simp only [b64decode, h1, h2, if_pos, List.isEmpty_nil, Bool.and_true, if_true]
    have e1 : b0 / 4 * 4 + b0 % 4 * 16 / 16 = b0 := by omega
    rw [e1]
    simp
  | [b0, b1], h => by
    have hb0 : b0 < 256 := h b0 (by simp)
    have hb1 : b1 < 256 := h b1 (by simp)
    have h1 := sextetVal_sextetChar (b0 / 4) (by omega)
    have h2 := sextetVal_sextetChar (b0 % 4 * 16 + b1 / 16) (by omega)
    have h3 := sextetVal_sextetChar (b1 % 16 * 4) (by omega)
    have hne2 : sextetChar (b1 % 16 * 4) ≠ '=' := sextetChar_ne_pad _ (by omega)
    show b64decode
        [sextetChar (b0 / 4), sextetChar (b0 % 4 * 16 + b1 / 16), sextetChar (b1 % 16 * 4), '='] =
      some [b0, b1]
    simp only [b64decode, h1, h2, h3, if_neg hne2, if_pos, List.isEmpty_nil, if_true]
    have e1 : b0 / 4 * 4 + (b0 % 4 * 16 + b1 / 16) / 16 = b0 := by omega
    have e2 : (b0 % 4 * 16 + b1 / 16) % 16 * 16 + b1 % 16 * 4 / 4 = b1 := by omega
    rw [e1, e2]
  | b0 :: b1 :: b2 :: rest, h => by
    have hb0 : b0 < 256 := h b0 (by simp)
    have hb1 : b1 < 256 := h b1 (by simp)
    have hb2 : b2 < 256 := h b2 (by simp)
    have hrest := b64decode_b64encode rest (fun b hb => h b (by simp [hb]))
    have h1 := sextetVal_sextetChar (b0 / 4) (by omega)
    have h2 := sextetVal_sextetChar (b0 % 4 * 16 + b1 / 16) (by omega)
    have h3 := sextetVal_sextetChar (b1 % 16 * 4 + b2 / 64) (by omega)
    have h4 := sextetVal_sextetChar (b2 % 64) (by omega)
    have hne2 : sextetChar (b1 % 16 * 4 + b2 / 64) ≠ '=' := sextetChar_ne_pad _ (by omega)
    have hne3 : sextetChar (b2 % 64) ≠ '=' := sextetChar_ne_pad _ (by omega)
    show b64decode
        (sextetChar (b0 / 4) :: sextetChar (b0 % 4 * 16 + b1 / 16) ::
          sextetChar (b1 % 16 * 4 + b2 / 64) :: sextetChar (b2 % 64) :: b64encode rest) =
      some (b0 :: b1 :: b2 :: rest)
    simp only [b64decode, h1, h2, h3, h4, hrest, if_neg hne2, if_neg hne3]
    have e1 : b0 / 4 * 4 + (b0 % 4 * 16 + b1 / 16) / 16 = b0 := by omega
    have e2 : (b0 % 4 * 16 + b1 / 16) % 16 * 16 + (b1 % 16 * 4 + b2 / 64) / 4 = b1 := by omega
    have e3 : (b1 % 16 * 4 + b2 / 64) % 4 * 64 + b2 % 64 = b2 := by omega
    rw [e1, e2, e3]

/-- C6: for every decoded bitmap, the base64 text that image_to_base64
produces decodes back exactly to the compressed bytes the imaging library
wrote for that bitmap. -/
theorem image_to_base64_decodes {Image : Type} (saveJpeg : Image → List Nat) (image : Image)
    (hbytes : ∀ b ∈ saveJpeg image, b < 256) :
    b64decode (image_to_base64 saveJpeg image) = some (saveJpeg image) :=
  b64decode_b64encode (saveJpeg image) hbytes

/-- Witness: concrete compressed bytes survive the round trip. -/
theorem image_to_base64_decodes_witness :
    b64decode (image_to_base64 (fun _ : Unit => [255, 0, 100]) ()) = some [255, 0, 100] :=
  image_to_base64_decodes (fun _ : Unit => [255, 0, 100]) () (by decide)

/-! ## The span the response parser slices -/

/-- First index over an append, when the character misses the prefix. -/
theorem charIndex_append_of_not_mem (a b : List Char) (c : Char) (h : c ∉ a) :
    charIndex (a ++ b) c = (charIndex b c).map (· + a.length) := by
  induction a with
  | nil => cases ho : charIndex b c <;> simp [ho]
  | cons x xs ih =>
    simp only [List.mem_cons, not_or] at h
    simp only [List.cons_append, charIndex, List.append_eq]
    rw [if_neg (fun he => h.1 he.symm), ih h.2]
    cases ho : charIndex b c with
    | none => rfl
    | some i =>
      simp only [Option.map_some', List.length_cons, Option.some.injEq]
      omega

/-- Last index over an append when the suffix holds an occurrence. -/
theorem charIndexLast_append_right (a b : List Char) (c : Char) (i : Nat)
    (hb : charIndexLast b c = some i) : charIndexLast (a ++ b) c = some (a.length + i) := by
  induction a with
  | nil => simpa using hb
  | cons x xs ih =>
    simp only [List.cons_append, charIndexLast, List.append_eq, ih, List.length_cons]
    congr 1
    omega

/-- Last index over an append when the suffix has no occurrence. -/
theorem charIndexLast_append_left (a b : List Char) (c : Char)
    (hb : charIndexLast b c = none) : charIndexLast (a ++ b) c = charIndexLast a c := by
  induction a with
  | nil => simpa using hb
  | cons x xs ih =>
    simp only [List.cons_append, charIndexLast, List.append_eq, ih]

/-- A string ending in the character has its last index at the end. -/
theorem charIndexLast_ends_with (t : List Char) (c : Char) :
    charIndexLast (t ++ [c]) c = some t.length := by
  have h0 : charIndexLast [c] c = some 0 := by simp [charIndexLast]
  simpa using charIndexLast_append_right t [c] c 0 h0

/-- The slice with exact bounds cuts out exactly the middle part. -/
theorem pySlice_exact (a b c : List Char) :
    pySlice (a ++ b ++ c) (a.length : Int) ((a.length : Int) + (b.length : Int)) = b := by
  have hlen : (a ++ b ++ c).length = a.length + b.length + c.length := by
    simp only [List.length_append]
  simp only [pySlice]
  rw [if_neg (by omega : ¬ ((a.length : Int) < 0))]
  rw [if_neg (by omega : ¬ ((a.length : Int) + (b.length : Int) < 0))]
  rw [min_eq_left (by rw [hlen]; push_cast; omega)]
  rw [min_eq_left (by rw [hlen]; push_cast; omega)]
  have e1 : ((a.length : Int)).toNat = a.length := by omega
  have e2 : ((a.length : Int) + (b.length : Int)).toNat = a.length + b.length := by omega
  rw [e1, e2]
  rw [show a.length + b.length = (a ++ b).length from by simp]
  rw [List.take_left, List.drop_left]

/-- The extracted span of a text whose first open brace opens a block that
ends at the last close brace is exactly that block. -/
theorem extractSpan_braced (pre B post t1 t2 : List Char)
    (h1 : B = '\x7b' :: t1) (h2 : B = t2 ++ ['\x7d'])
    (hpre : '\x7b' ∉ pre) (hpost : '\x7d' ∉ post) :
    extractSpan (pre ++ B ++ post) = B := by
  have hBl : B.length = t2.length + 1 := by rw [h2]; simp
  have hfind : charIndex (pre ++ B ++ post) '\x7b' = some pre.length := by
    rw [List.append_assoc, charIndex_append_of_not_mem pre (B ++ post) _ hpre]
    rw [h1]
    simp [charIndex]
  have hlast : charIndexLast (pre ++ B ++ post) '\x7d' = some (pre.length + t2.length) := by
    rw [charIndexLast_append_left (pre ++ B) post _ (charIndexLast_eq_none post _ hpost)]
    exact charIndexLast_append_right pre B _ t2.length
      (by rw [h2]; exact charIndexLast_ends_with t2 _)
  simp only [extractSpan, pyFind, pyRFind, hfind, hlast]
  rw [show ((pre.length + t2.length : Nat) : Int) + 1 = (pre.length : Int) + (B.length : Int)
    from by push_cast [hBl]; omega]
  exact pySlice_exact pre B post

/-- C1: the Response Parser slices from the first open brace to the last
close brace.  With braceless prose before and after one well-formed object,
the span is exactly that object and the parse succeeds with exactly its
record; with two sibling objects in the reply, the span runs from the first
open brace to the last close brace, covering both and their separator. -/
theorem response_span_first_to_last :
    (∀ (pre mid post : List Char) (o : Json),
      '\x7b' ∉ pre → '\x7d' ∉ post →
      json_loads ('\x7b' :: (mid ++ ['\x7d'])) = some o →
      extractSpan (pre ++ ('\x7b' :: (mid ++ ['\x7d'])) ++ post) = '\x7b' :: (mid ++ ['\x7d']) ∧
      analyze_rooftop_with_ai (ApiOutcome.ok (pre ++ ('\x7b' :: (mid ++ ['\x7d'])) ++ post)) =
        (some o, none)) ∧
    (∀ (pre m1 sep m2 post : List Char),
      '\x7b' ∉ pre → '\x7d' ∉ post →
      extractSpan (pre ++ ('\x7b' :: (m1 ++ ['\x7d'])) ++ sep ++ ('\x7b' :: (m2 ++ ['\x7d'])) ++ post) =
        ('\x7b' :: (m1 ++ ['\x7d'])) ++ sep ++ ('\x7b' :: (m2 ++ ['\x7d']))) := by
  constructor
  · intro pre mid post o hpre hpost hloads
    have hext : extractSpan (pre ++ ('\x7b' :: (mid ++ ['\x7d'])) ++ post) =
        '\x7b' :: (mid ++ ['\x7d']) :=
      extractSpan_braced pre _ post (mid ++ ['\x7d']) ('\x7b' :: mid) rfl (by simp) hpre hpost
    refine ⟨hext, ?_⟩
    simp only [analyze_rooftop_with_ai]
    rw [hext, hloads]
  · intro pre m1 sep m2 post hpre hpost
    have hcore := extractSpan_braced pre
        (('\x7b' :: (m1 ++ ['\x7d'])) ++ sep ++ ('\x7b' :: (m2 ++ ['\x7d']))) post
        ((m1 ++ ['\x7d']) ++ sep ++ ('\x7b' :: (m2 ++ ['\x7d'])))
        (('\x7b' :: (m1 ++ ['\x7d'])) ++ sep ++ ('\x7b' :: m2))
        (by simp) (by simp) hpre hpost
    rw [show pre ++ ('\x7b' :: (m1 ++ ['\x7d'])) ++ sep ++ ('\x7b' :: (m2 ++ ['\x7d'])) ++ post =
        pre ++ (('\x7b' :: (m1 ++ ['\x7d'])) ++ sep ++ ('\x7b' :: (m2 ++ ['\x7d']))) ++ post
      from by simp [List.append_assoc]]
    exact hcore

/-- The prose before the object in the span witness. -/
def c1PreText : List Char := ("Sure! Here is the result: ").data

/-- The object body in the span witness. -/
def c1MidText : List Char := ("\"solar_suitability_score\": 8").data

/-- The prose after the object in the span witness. -/
def c1PostText : List Char := (" Hope this helps.").data

/-- The separator between the two sibling objects in the span witness. -/
def c1SepText : List Char := (" and also ").data

/-- The body of the second sibling object in the span witness. -/
def c1Mid2Text : List Char := ("\"x\": 1").data

/-! ## Round trip of the report serialization: token layer -/

/-- A head that is not whitespace stops the skip. -/
theorem skipWs_cons_false (c : Char) (t : List Char) (h : isJsonWs c = false) :
    skipWs (c :: t) = c :: t := by
  simp [skipWs, h]

/-- Leading spaces are skipped. -/
theorem skipWs_replicate (k : Nat) (X : List Char) :
    skipWs (List.replicate k ' ' ++ X) = skipWs X := by
  induction k with
  | zero => rfl
  | succ k ih =>
    rw [List.replicate_succ, List.cons_append]
    simp only [skipWs]
    rw [if_pos (by decide), ih]

/-- A newline and its indentation are skipped. -/
theorem skipWs_nlIndent (level : Nat) (X : List Char) :
    skipWs (nlIndent level ++ X) = skipWs X := by
  rw [nlIndent, List.cons_append]
  simp only [skipWs]
  rw [if_pos (by decide), skipWs_replicate]

/-- The value scanner only looks at its input through the whitespace skip. -/
theorem parseVal_ws_congr (fuel : Nat) (s t : List Char) (h : skipWs s = skipWs t) :
    parseVal fuel s = parseVal fuel t := by
  cases fuel with
  | zero => rfl
  | succ fuel => simp only [parseVal, h]

/-- A text that cannot extend a numeral: empty, or led by a non-digit. -/
def stopsNum : List Char → Bool
  | [] => true
  | c :: _ => !isDigitChar c

/-- The digit scan stops where no digit follows. -/
theorem digitsLoop_stop (acc : Nat) (rest : List Char) (h : stopsNum rest = true) :
    digitsLoop acc rest = (acc, rest) := by
  cases rest with
  | nil => rfl
  | cons c t =>
    simp only [stopsNum, Bool.not_eq_true'] at h
    simp [digitsLoop, h]

/-- The numeric bounds a digit character satisfies. -/
theorem isDigitChar_bounds (c : Char) (h : isDigitChar c = true) :
    48 ≤ c.toNat ∧ c.toNat ≤ 57 := by
  simpa [isDigitChar, Bool.and_eq_true, decide_eq_true_eq] using h

/-- A digit character is not whitespace. -/
theorem isDigitChar_not_ws (c : Char) (h : isDigitChar c = true) : isJsonWs c = false := by
  obtain ⟨h1, h2⟩ := isDigitChar_bounds c h
  simp only [isJsonWs, Bool.or_eq_false_iff, decide_eq_false_iff_not]
  omega

/-- Facts about the characters the decimal digit table returns. -/
theorem digitChar_spec (d : Nat) (h : d < 10) :
    isDigitChar (digitChar d) = true ∧ digitVal (digitChar d) = d := by
  interval_cases d <;> exact ⟨by decide, by decide⟩

/-- The digits of a positive number start with a nonzero digit. -/
theorem natText_pos_head (n : Nat) (h : 1 ≤ n) :
    ∃ c t, natText n = c :: t ∧ isDigitChar c = true ∧ c ≠ '0' := by
  rw [natText]
  by_cases h10 : n < 10
  · rw [dif_pos h10]
    refine ⟨digitChar n, [], rfl, (digitChar_spec n h10).1, ?_⟩
    interval_cases n <;> decide
  · rw [dif_neg h10]
    obtain ⟨c, t, hshape, hdig, hne⟩ := natText_pos_head (n / 10) (by omega)
    exact ⟨c, t ++ [digitChar (n % 10)], by rw [hshape]; rfl, hdig, hne⟩
termination_by n
decreasing_by exact Nat.div_lt_self (by omega) (by omega)

/-- Scanning the digits of a number appends it to the accumulator. -/
theorem digitsLoop_natText (n : Nat) : ∀ (acc : Nat) (rest : List Char),
    digitsLoop acc (natText n ++ rest) =
      digitsLoop (acc * 10 ^ (natText n).length + n) rest := by
  intro acc rest
  rw [natText]
  by_cases h10 : n < 10
  · rw [dif_pos h10]
    obtain ⟨hdig, hval⟩ := digitChar_spec n h10
    simp only [List.cons_append, List.nil_append, digitsLoop, hdig, if_true, hval,
      List.length_cons, List.length_nil]
    norm_num
  · rw [dif_neg h10]
    rw [List.append_assoc, List.singleton_append]
    rw [digitsLoop_natText (n / 10) acc (digitChar (n % 10) :: rest)]
    obtain ⟨hdig, hval⟩ := digitChar_spec (n % 10) (by omega)
    simp only [digitsLoop, hdig, if_true, hval, List.length_append, List.length_cons,
      List.length_nil]
    have harith : (acc * 10 ^ (natText (n / 10)).length + n / 10) * 10 + n % 10 =
        acc * 10 ^ ((natText (n / 10)).length + (0 + 1)) + n := by
      rw [pow_succ]
      have hdm := Nat.div_add_mod n 10
      ring_nf
      omega
    rw [harith]
termination_by n
decreasing_by exact Nat.div_lt_self (by omega) (by omega)

/-- The unsigned token scan reads back exactly the digits a number printed. -/
theorem parseUIntTok_natText (n : Nat) (rest : List Char) (hrest : stopsNum rest = true) :
    parseUIntTok (natText n ++ rest) = some (n, rest) := by
  cases n with
  | zero =>
    have h0 : natText 0 = ['0'] := by rw [natText]; rfl
    rw [h0]
    rfl
  | succ m =>
    obtain ⟨c, t, hshape, hdig, hne⟩ := natText_pos_head (m + 1) (by omega)
    rw [hshape, List.cons_append]
    simp only [parseUIntTok]
    rw [if_neg hne, if_pos hdig, ← List.cons_append, ← hshape]
    rw [digitsLoop_natText, digitsLoop_stop _ _ hrest]
    simp

/-- The signed token scan reads back exactly what an integer printed. -/
theorem parseIntTok_intText (i : Int) (rest : List Char) (hrest : stopsNum rest = true) :
    parseIntTok (intText i ++ rest) = some (i, rest) := by
  cases i with
  | ofNat m =>
    cases m with
    | zero =>
      have h0 : natText 0 = ['0'] := by rw [natText]; rfl
      show parseIntTok (natText 0 ++ rest) = some (Int.ofNat 0, rest)
      rw [h0]
      rfl
    | succ m0 =>
      obtain ⟨c, t, hshape, hdig, hne⟩ := natText_pos_head (m0 + 1) (by omega)
      show parseIntTok (natText (m0 + 1) ++ rest) = some (Int.ofNat (m0 + 1), rest)
      rw [hshape, List.cons_append]
      simp only [parseIntTok]
      rw [if_neg (fun he => by rw [he] at hdig; exact absurd hdig (by decide))]
      rw [← List.cons_append, ← hshape, parseUIntTok_natText (m0 + 1) rest hrest]
      simp
  | negSucc m =>
    show parseIntTok ('-' :: (natText (m + 1) ++ rest)) = some (Int.negSucc m, rest)
    simp only [parseIntTok, if_true]
    rw [parseUIntTok_natText (m + 1) rest hrest]
    simp only [Option.map_some']
    congr 1

/-! ## Round trip of the report serialization: string layer -/

/-- The hexadecimal table inverts on every value below sixteen. -/
theorem hexVal_hexDigChar (k : Nat) (h : k < 16) : hexVal (hexDigChar k) = some k := by
  interval_cases k <;> decide

/-- Reading four printed hexadecimal digits gives the number back. -/
theorem hex4Val_uEsc_digits (n : Nat) (h : n < 65536) :
    hex4Val (hexDigChar (n / 4096 % 16)) (hexDigChar (n / 256 % 16))
      (hexDigChar (n / 16 % 16)) (hexDigChar (n % 16)) = some n := by
  simp only [hex4Val, hexVal_hexDigChar (n / 4096 % 16) (by omega),
    hexVal_hexDigChar (n / 256 % 16) (by omega), hexVal_hexDigChar (n / 16 % 16) (by omega),
    hexVal_hexDigChar (n % 16) (by omega), Option.some.injEq]
  omega

/-- The validity range of a character code, from the structure invariant. -/
theorem char_toNat_valid (c : Char) :
    c.toNat < 55296 ∨ (57343 < c.toNat ∧ c.toNat < 1114112) := c.valid

/-- Equation: the closing quote ends the string body. -/
theorem parseStrBody_closeQuote (f : Nat) (r : List Char) :
    parseStrBody (f + 1) ('"' :: r) = some ([], r) := by
  rw [parseStrBody.eq_def]
  simp

/-- Equation: a raw printable character stands for itself. -/
theorem parseStrBody_raw (f : Nat) (c : Char) (r : List Char) (hq : ¬ c = '"')
    (hb : ¬ c = '\\') (hge : ¬ c.toNat < 32) :
    parseStrBody (f + 1) (c :: r) = (parseStrBody f r).map (fun p => (c :: p.1, p.2)) := by
  rw [parseStrBody.eq_def]
  simp only [if_neg hq, if_neg hb, if_neg hge]

/-- Equation: a backslash hands the rest of the input to the escape reader. -/
theorem parseStrBody_escStep (f : Nat) (rest rest2 : List Char) (c2 : Char)
    (h : readEscape rest = some (c2, rest2)) :
    parseStrBody (f + 1) ('\\' :: rest) =
      (parseStrBody f rest2).map (fun p => (c2 :: p.1, p.2)) := by
  rw [parseStrBody.eq_def]
  simp only [if_neg (by decide : ¬ ('\\' : Char) = '"'),
    if_pos (rfl : ('\\' : Char) = '\\'), h]
  simp

/-- Equation: a short escape decodes through the table. -/
theorem readEscape_table (e c2 : Char) (r : List Char) (hne : ¬ e = 'u')
    (he : escCharOf e = some c2) : readEscape (e :: r) = some (c2, r) := by
  unfold readEscape
  simp only [if_neg hne, he]

/-- Equation: a backslash-u escape outside the surrogate range decodes to
its code point. -/
theorem readEscape_u (a b k d : Char) (r : List Char) (n : Nat)
    (hh : hex4Val a b k d = some n) (hrange : n < 55296 ∨ 57344 ≤ n) :
    readEscape ('u' :: a :: b :: k :: d :: r) = some (Char.ofNat n, r) := by
  unfold readEscape
  simp only [if_pos (rfl : ('u' : Char) = 'u'), hh]
  rw [if_pos (show (decide (n < 55296) || decide (57344 ≤ n)) = true by
    rcases hrange with h | h <;> simp [h])]
  simp

/-- Equation: a high-surrogate escape followed by a low-surrogate escape
decodes to the combined code point. -/
theorem readEscape_surrogates (a b k d e2 f2 g2 i2 : Char) (r : List Char) (n m : Nat)
    (hh1 : hex4Val a b k d = some n) (hh2 : hex4Val e2 f2 g2 i2 = some m)
    (hn1 : 55296 ≤ n) (hn2 : n < 56320) (hm1 : 56320 ≤ m) (hm2 : m < 57344) :
    readEscape ('u' :: a :: b :: k :: d :: '\\' :: 'u' :: e2 :: f2 :: g2 :: i2 :: r) =
      some (Char.ofNat (65536 + (n - 55296) * 1024 + (m - 56320)), r) := by
  unfold readEscape
  simp only [if_pos (rfl : ('u' : Char) = 'u'), hh1, hh2]
  rw [if_neg (show ¬ (decide (n < 55296) || decide (57344 ≤ n)) = true by
    simp only [Bool.or_eq_true, decide_eq_true_eq]
    omega)]
  rw [if_pos (by omega : n < 56320)]
  rw [if_pos (by decide : (decide True && decide True) = true)]
  rw [if_pos (show (decide (56320 ≤ m) && decide (m < 57344)) = true by
    simp only [Bool.and_eq_true, decide_eq_true_eq]
    omega)]
  simp

/-- Every character escapes to at least one character. -/
theorem escapeChar_length_pos (c : Char) : 1 ≤ (escapeChar c).length := by
  unfold escapeChar
  repeat' split
  all_goals try simp only [uEsc, List.length_cons, List.length_append, List.length_nil]
  all_goals omega

/-- Unescaping inverts escaping: the string body printed for any string,
followed by the closing quote, parses back to exactly that string, under
any fuel beyond the body length. -/
theorem parseStrBody_escape : ∀ (s rest : List Char) (fuel : Nat),
    (escapeStr s).length < fuel →
    parseStrBody fuel (escapeStr s ++ ('"' :: rest)) = some (s, rest)
  | [], rest, fuel, hfuel => by
    obtain ⟨f, rfl⟩ : ∃ f, fuel = f + 1 := ⟨fuel - 1, by omega⟩
    rw [show escapeStr [] ++ ('"' :: rest) = '"' :: rest from rfl, parseStrBody_closeQuote]
  | c :: cs, rest, fuel, hfuel => by
    obtain ⟨f, rfl⟩ : ∃ f, fuel = f + 1 := ⟨fuel - 1, by omega⟩
    have hsplitLen : (escapeStr (c :: cs)).length =
        (escapeChar c).length + (escapeStr cs).length := by
      rw [show escapeStr (c :: cs) = escapeChar c ++ escapeStr cs from rfl, List.length_append]
    have hcs : (escapeStr cs).length < f := by
      have h1 := escapeChar_length_pos c
      omega
    have ih := parseStrBody_escape cs rest f hcs
    have hv := char_toNat_valid c
    rw [show escapeStr (c :: cs) = escapeChar c ++ escapeStr cs from rfl, List.append_assoc]
    by_cases hq : c = '"'
    · subst hq
      rw [show escapeChar '"' ++ (escapeStr cs ++ '"' :: rest) =
          '\\' :: ('"' :: (escapeStr cs ++ '"' :: rest)) from rfl]
      rw [parseStrBody_escStep _ _ _ _ (readEscape_table '"' '"' _ (by decide) rfl), ih]
      rfl
    · by_cases hb : c = '\\'
      · subst hb
        rw [show escapeChar '\\' ++ (escapeStr cs ++ '"' :: rest) =
            '\\' :: ('\\' :: (escapeStr cs ++ '"' :: rest)) from rfl]
        rw [parseStrBody_escStep _ _ _ _ (readEscape_table '\\' '\\' _ (by decide) rfl), ih]
        rfl
      · by_cases h8 : c = '\x08'
        · subst h8
          rw [show escapeChar '\x08' ++ (escapeStr cs ++ '"' :: rest) =
              '\\' :: ('b' :: (escapeStr cs ++ '"' :: rest)) from rfl]
          rw [parseStrBody_escStep _ _ _ _ (readEscape_table 'b' '\x08' _ (by decide) rfl), ih]
          rfl
        · by_cases h9 : c = '\t'
          · subst h9
            rw [show escapeChar '\t' ++ (escapeStr cs ++ '"' :: rest) =
                '\\' :: ('t' :: (escapeStr cs ++ '"' :: rest)) from rfl]
            rw [parseStrBody_escStep _ _ _ _ (readEscape_table 't' '\t' _ (by decide) rfl), ih]
            rfl
          · by_cases h10 : c = '\n'
            · subst h10
              rw [show escapeChar '\n' ++ (escapeStr cs ++ '"' :: rest) =
                  '\\' :: ('n' :: (escapeStr cs ++ '"' :: rest)) from rfl]
              rw [parseStrBody_escStep _ _ _ _ (readEscape_table 'n' '\n' _ (by decide) rfl),
                ih]
              rfl
            · by_cases h12 : c = '\x0c'
              · subst h12
                rw [show escapeChar '\x0c' ++ (escapeStr cs ++ '"' :: rest) =
                    '\\' :: ('f' :: (escapeStr cs ++ '"' :: rest)) from rfl]
                rw [parseStrBody_escStep _ _ _ _ (readEscape_table 'f' '\x0c' _ (by decide) rfl),
                  ih]
                rfl
              · by_cases h13 : c = '\r'
                · subst h13
                  rw [show escapeChar '\r' ++ (escapeStr cs ++ '"' :: rest) =
                      '\\' :: ('r' :: (escapeStr cs ++ '"' :: rest)) from rfl]
                  rw [parseStrBody_escStep _ _ _ _ (readEscape_table 'r' '\r' _ (by decide) rfl),
                    ih]
                  rfl
                · rw [escapeChar, if_neg hq, if_neg hb, if_neg h8, if_neg h9, if_neg h10,
                    if_neg h12, if_neg h13]
                  by_cases hr : (decide (c.toNat < 32) || decide (126 < c.toNat)) = true
                  · rw [if_pos hr]
                    by_cases hbmp : c.toNat < 65536
                    · rw [if_pos hbmp]
                      rw [show uEsc c.toNat ++ (escapeStr cs ++ '"' :: rest) =
                          '\\' :: ('u' :: hexDigChar (c.toNat / 4096 % 16) ::
                            hexDigChar (c.toNat / 256 % 16) :: hexDigChar (c.toNat / 16 % 16) ::
                            hexDigChar (c.toNat % 16) :: (escapeStr cs ++ '"' :: rest))
                        from rfl]
                      rw [parseStrBody_escStep _ _ _ _
                        (readEscape_u _ _ _ _ _ c.toNat (hex4Val_uEsc_digits c.toNat hbmp)
                          (by omega)), ih]
                      simp [Char.ofNat_toNat]
                    · rw [if_neg hbmp]
                      rw [show uEsc (55296 + (c.toNat - 65536) / 1024) ++
                            uEsc (56320 + (c.toNat - 65536) % 1024) ++
                            (escapeStr cs ++ '"' :: rest) =
                          '\\' :: ('u' ::
                            hexDigChar ((55296 + (c.toNat - 65536) / 1024) / 4096 % 16) ::
                            hexDigChar ((55296 + (c.toNat - 65536) / 1024) / 256 % 16) ::
                            hexDigChar ((55296 + (c.toNat - 65536) / 1024) / 16 % 16) ::
                            hexDigChar ((55296 + (c.toNat - 65536) / 1024) % 16) ::
                            '\\' :: 'u' ::
                            hexDigChar ((56320 + (c.toNat - 65536) % 1024) / 4096 % 16) ::
                            hexDigChar ((56320 + (c.toNat - 65536) % 1024) / 256 % 16) ::
                            hexDigChar ((56320 + (c.toNat - 65536) % 1024) / 16 % 16) ::
                            hexDigChar ((56320 + (c.toNat - 65536) % 1024) % 16) ::
                            (escapeStr cs ++ '"' :: rest))
                        from by simp [uEsc]]
                      rw [parseStrBody_escStep _ _ _ _
                        (readEscape_surrogates _ _ _ _ _ _ _ _ _
                          (55296 + (c.toNat - 65536) / 1024) (56320 + (c.toNat - 65536) % 1024)
                          (hex4Val_uEsc_digits _ (by omega)) (hex4Val_uEsc_digits _ (by omega))
                          (by omega) (by omega) (by omega) (by omega)), ih]
                      rw [show 65536 + (55296 + (c.toNat - 65536) / 1024 - 55296) * 1024 +
                          (56320 + (c.toNat - 65536) % 1024 - 56320) = c.toNat from by omega]
                      rw [Char.ofNat_toNat]
                      rfl
                  · rw [if_neg hr]
                    rw [show [c] ++ (escapeStr cs ++ '"' :: rest) =
                        c :: (escapeStr cs ++ '"' :: rest) from rfl]
                    rw [parseStrBody_raw f c _ hq hb (by
                      simp only [Bool.or_eq_true, decide_eq_true_eq, not_or] at hr
                      omega), ih]
                    rfl

set_option maxRecDepth 100000 in
/-- Witness: a concrete prose-wrapped object is extracted and parsed exactly,
and a concrete two-object reply has its span cover both objects. -/
theorem response_span_first_to_last_witness :
    (extractSpan (c1PreText ++ ('\x7b' :: (c1MidText ++ ['\x7d'])) ++ c1PostText) =
        '\x7b' :: (c1MidText ++ ['\x7d']) ∧
      analyze_rooftop_with_ai
          (ApiOutcome.ok (c1PreText ++ ('\x7b' :: (c1MidText ++ ['\x7d'])) ++ c1PostText)) =
        (some (Json.obj [(("solar_suitability_score").data, Json.num 8)]), none)) ∧
    extractSpan (c1PreText ++ ('\x7b' :: (c1MidText ++ ['\x7d'])) ++ c1SepText ++
        ('\x7b' :: (c1Mid2Text ++ ['\x7d'])) ++ c1PostText) =
      ('\x7b' :: (c1MidText ++ ['\x7d'])) ++ c1SepText ++ ('\x7b' :: (c1Mid2Text ++ ['\x7d'])) :=
  ⟨response_span_first_to_last.1 c1PreText c1MidText c1PostText
      (Json.obj [(("solar_suitability_score").data, Json.num 8)]) (by decide) (by decide) rfl,
   response_span_first_to_last.2 c1PreText c1MidText c1SepText c1Mid2Text c1PostText
      (by decide) (by decide)⟩

/-! ## Round trip of the report serialization: value layer -/

/-- Shape of the serialization of null. -/
theorem dumpVal_null (lvl : Nat) : dumpVal Json.null lvl = ['n', 'u', 'l', 'l'] := by
  simp only [dumpVal]

/-- Shape of the serialization of true. -/
theorem dumpVal_true (lvl : Nat) : dumpVal (Json.bool true) lvl = ['t', 'r', 'u', 'e'] := by
  simp only [dumpVal]

/-- Shape of the serialization of false. -/
theorem dumpVal_false (lvl : Nat) :
    dumpVal (Json.bool false) lvl = ['f', 'a', 'l', 's', 'e'] := by
  simp only [dumpVal]

/-- Shape of the serialization of a number. -/
theorem dumpVal_num (n : Int) (lvl : Nat) : dumpVal (Json.num n) lvl = intText n := by
  simp only [dumpVal]

/-- Shape of the serialization of a string. -/
theorem dumpVal_str (s : List Char) (lvl : Nat) : dumpVal (Json.str s) lvl = quoteStr s := by
  simp only [dumpVal]

/-- Shape of the serialization of the empty array. -/
theorem dumpVal_arrNil (lvl : Nat) : dumpVal (Json.arr []) lvl = ['[', ']'] := by
  simp only [dumpVal]

/-- Shape of the serialization of a nonempty array. -/
theorem dumpVal_arrCons (x : Json) (xs : List Json) (lvl : Nat) :
    dumpVal (Json.arr (x :: xs)) lvl =
      '[' :: (nlIndent (lvl + 1) ++ dumpVal x (lvl + 1) ++ dumpElemsRest xs (lvl + 1)
        ++ nlIndent lvl ++ [']']) := by
  simp only [dumpVal]

/-- Shape of the serialization of the empty object. -/
theorem dumpVal_objNil (lvl : Nat) : dumpVal (Json.obj []) lvl = ['\x7b', '\x7d'] := by
  simp only [dumpVal]

/-- Shape of the serialization of a nonempty object. -/
theorem dumpVal_objCons (k : List Char) (v : Json) (ms : List (List Char × Json)) (lvl : Nat) :
    dumpVal (Json.obj ((k, v) :: ms)) lvl =
      '\x7b' :: (nlIndent (lvl + 1) ++ quoteStr k ++ ':' :: ' ' :: dumpVal v (lvl + 1)
        ++ dumpMembersRest ms (lvl + 1) ++ nlIndent lvl ++ ['\x7d']) := by
  simp only [dumpVal]

/-- Shape of the remaining-elements serialization. -/
theorem dumpElemsRest_nil (lvl : Nat) : dumpElemsRest [] lvl = [] := by
  simp only [dumpElemsRest]

/-- Shape of the remaining-elements serialization on a cons. -/
theorem dumpElemsRest_cons (x : Json) (xs : List Json) (lvl : Nat) :
    dumpElemsRest (x :: xs) lvl =
      ',' :: (nlIndent lvl ++ dumpVal x lvl ++ dumpElemsRest xs lvl) := by
  simp only [dumpElemsRest]

/-- Shape of the remaining-members serialization. -/
theorem dumpMembersRest_nil (lvl : Nat) : dumpMembersRest [] lvl = [] := by
  simp only [dumpMembersRest]

/-- Shape of the remaining-members serialization on a cons. -/
theorem dumpMembersRest_cons (k : List Char) (v : Json) (ms : List (List Char × Json))
    (lvl : Nat) :
    dumpMembersRest ((k, v) :: ms) lvl =
      ',' :: (nlIndent lvl ++ quoteStr k ++ ':' :: ' ' :: dumpVal v lvl
        ++ dumpMembersRest ms lvl) := by
  simp only [dumpMembersRest]

/-- Length of a quoted string. -/
theorem quoteStr_length (s : List Char) :
    (quoteStr s).length = (escapeStr s).length + 2 := by
  simp [quoteStr]

/-- Length of a fresh line with indentation. -/
theorem nlIndent_length (lvl : Nat) : (nlIndent lvl).length = 2 * lvl + 1 := by
  simp [nlIndent]

/-- Every serialized value starts with a character that is neither whitespace
nor a closing bracket. -/
theorem dumpVal_cons (j : Json) (lvl : Nat) :
    ∃ c t, dumpVal j lvl = c :: t ∧ isJsonWs c = false ∧ ¬ c = ']' := by
  cases j with
  | null => exact ⟨'n', _, dumpVal_null lvl, by decide, by decide⟩
  | bool b =>
    cases b with
    | false => exact ⟨'f', _, dumpVal_false lvl, by decide, by decide⟩
    | true => exact ⟨'t', _, dumpVal_true lvl, by decide, by decide⟩
  | num n =>
    cases n with
    | ofNat m =>
      cases m with
      | zero =>
        refine ⟨'0', [], ?_, by decide, by decide⟩
        rw [dumpVal_num]
        simp only [intText]
        rw [natText, dif_pos (by decide : (0:Nat) < 10)]
        decide
      | succ m0 =>
        obtain ⟨c, t, hshape, hdig, hne0⟩ := natText_pos_head (m0 + 1) (by omega)
        refine ⟨c, t, ?_, isDigitChar_not_ws c hdig, ?_⟩
        · rw [dumpVal_num]
          simpa only [intText] using hshape
        · intro he
          rw [he] at hdig
          exact absurd hdig (by decide)
    | negSucc m => exact ⟨'-', _, by rw [dumpVal_num]; rfl, by decide, by decide⟩
  | str s => exact ⟨'"', _, by rw [dumpVal_str]; rfl, by decide, by decide⟩
  | arr xs =>
    cases xs with
    | nil => exact ⟨'[', _, dumpVal_arrNil lvl, by decide, by decide⟩
    | cons x xs => exact ⟨'[', _, dumpVal_arrCons x xs lvl, by decide, by decide⟩
  | obj ms =>
    cases ms with
    | nil => exact ⟨'\x7b', _, dumpVal_objNil lvl, by decide, by decide⟩
    | cons kv ms =>
      obtain ⟨k, v⟩ := kv
      exact ⟨'\x7b', _, dumpVal_objCons k v ms lvl, by decide, by decide⟩

/-- The remaining-elements text, followed by a fresh line, cannot extend a
numeral: it starts with a comma or a newline. -/
theorem stopsNum_elems_tail (xs : List Json) (li lc : Nat) (X : List Char) :
    stopsNum (dumpElemsRest xs li ++ (nlIndent lc ++ X)) = true := by
  cases xs with
  | nil => rw [dumpElemsRest_nil, List.nil_append, nlIndent, List.cons_append]; rfl
  | cons y ys => rw [dumpElemsRest_cons, List.cons_append]; rfl

/-- The remaining-members text, followed by a fresh line, cannot extend a
numeral: it starts with a comma or a newline. -/
theorem stopsNum_members_tail (ms : List (List Char × Json)) (li lc : Nat) (X : List Char) :
    stopsNum (dumpMembersRest ms li ++ (nlIndent lc ++ X)) = true := by
  cases ms with
  | nil => rw [dumpMembersRest_nil, List.nil_append, nlIndent, List.cons_append]; rfl
  | cons kv ms =>
    obtain ⟨k, v⟩ := kv
    rw [dumpMembersRest_cons, List.cons_append]
    rfl

/-- A key list holds any key it is split around. -/
theorem keyMem_append_self (A B : List (List Char)) (x : List Char) :
    keyMem (A ++ x :: B) x = true := by
  induction A with
  | nil => simp [keyMem]
  | cons y A ih =>
    simp only [List.cons_append, List.append_eq, keyMem]
    by_cases hyx : y = x
    · rw [if_pos hyx]
    · rw [if_neg hyx, ih]

/-- In a duplicate-free key list, a key does not also occur before itself. -/
theorem noDupKeys_split (K M : List (List Char)) (k : List Char)
    (h : noDupKeys (K ++ k :: M) = true) : keyMem K k = false := by
  induction K with
  | nil => rfl
  | cons x xs ih =>
    simp only [List.cons_append, List.append_eq, noDupKeys, Bool.and_eq_true,
      Bool.not_eq_true'] at h
    obtain ⟨hx, hrest⟩ := h
    have hxk : ¬ x = k := by
      intro he
      subst he
      rw [keyMem_append_self] at hx
      cases hx
    simp only [keyMem, if_neg hxk]
    exact ih hrest

/-- Inserting a key absent from the accumulator appends it at the end. -/
theorem insertKey_fresh (acc : List (List Char × Json)) (k : List Char) (v : Json)
    (h : keyMem (acc.map Prod.fst) k = false) : insertKey acc k v = acc ++ [(k, v)] := by
  induction acc with
  | nil => rfl
  | cons kv rest ih =>
    obtain ⟨k0, v0⟩ := kv
    simp only [List.map_cons, keyMem] at h
    by_cases hk : k0 = k
    · rw [if_pos hk] at h
      cases h
    · rw [if_neg hk] at h
      simp only [insertKey, if_neg hk, List.cons_append]
      rw [ih h]

/-- Leading whitespace before a quoted string is only the quote away. -/
theorem skipWs_quoteStr (k X : List Char) : skipWs (quoteStr k ++ X) = quoteStr k ++ X := by
  rw [quoteStr, List.cons_append]
  exact skipWs_cons_false _ _ (by decide)

/-- One step of the value scanner on an opening brace followed by a fresh
line and a quoted key: it hands the members to the member scanner. -/
theorem parseVal_openBrace (f lvl : Nat) (T : List Char) :
    parseVal (f + 1) ('\x7b' :: (nlIndent lvl ++ ('"' :: T))) = parseMembers f ('"' :: T) [] := by
  simp only [parseVal]
  rw [skipWs_cons_false _ _ (by decide : isJsonWs '\x7b' = false)]
  simp only []
  rw [if_pos trivial]
  rw [skipWs_nlIndent, skipWs_cons_false _ _ (by decide : isJsonWs '"' = false)]
  simp only []
  rw [if_neg (by decide : ¬ ('"' : Char) = '\x7d')]

/-- One step of the value scanner on an opening bracket followed by a fresh
line and a non-bracket element head: it hands the elements to the element
scanner. -/
theorem parseVal_openBracket (f lvl : Nat) (c : Char) (T : List Char)
    (hws : isJsonWs c = false) (hne : ¬ c = ']') :
    parseVal (f + 1) ('[' :: (nlIndent lvl ++ (c :: T))) = parseElems f (c :: T) [] := by
  simp only [parseVal]
  rw [skipWs_cons_false _ _ (by decide : isJsonWs '[' = false)]
  simp only []
  rw [if_pos trivial]
  rw [skipWs_nlIndent, skipWs_cons_false _ _ hws]
  simp only []
  rw [if_neg hne]
  rw [if_neg (by decide : ¬ ('[' : Char) = '\x7b')]

/-- The serialized null parses back. -/
theorem parseVal_dump_null (f lvl : Nat) (rest : List Char) :
    parseVal (f + 1) (dumpVal Json.null lvl ++ rest) = some (Json.null, rest) := by
  rw [dumpVal_null]
  simp only [parseVal]
  rfl

/-- The serialized true parses back. -/
theorem parseVal_dump_true (f lvl : Nat) (rest : List Char) :
    parseVal (f + 1) (dumpVal (Json.bool true) lvl ++ rest) = some (Json.bool true, rest) := by
  rw [dumpVal_true]
  simp only [parseVal]
  rfl

/-- The serialized false parses back. -/
theorem parseVal_dump_false (f lvl : Nat) (rest : List Char) :
    parseVal (f + 1) (dumpVal (Json.bool false) lvl ++ rest) = some (Json.bool false, rest) := by
  rw [dumpVal_false]
  simp only [parseVal]
  rfl

/-- The serialized empty array parses back. -/
theorem parseVal_dump_arrNil (f lvl : Nat) (rest : List Char) :
    parseVal (f + 1) (dumpVal (Json.arr []) lvl ++ rest) = some (Json.arr [], rest) := by
  rw [dumpVal_arrNil]
  simp only [parseVal]
  rfl

/-- The serialized empty object parses back. -/
theorem parseVal_dump_objNil (f lvl : Nat) (rest : List Char) :
    parseVal (f + 1) (dumpVal (Json.obj []) lvl ++ rest) = some (Json.obj [], rest) := by
  rw [dumpVal_objNil]
  simp only [parseVal]
  rfl

/-- A serialized number, before a text that cannot extend a numeral, parses
back. -/
theorem parseVal_dump_num (f lvl : Nat) (i : Int) (rest : List Char)
    (hrest : stopsNum rest = true) :
    parseVal (f + 1) (dumpVal (Json.num i) lvl ++ rest) = some (Json.num i, rest) := by
  rw [dumpVal_num]
  cases i with
  | ofNat m =>
    cases m with
    | zero =>
      have h0 : intText (Int.ofNat 0) = ['0'] := by
        simp only [intText]
        rw [natText, dif_pos (by decide : (0 : Nat) < 10)]
        decide
      rw [h0]
      simp only [parseVal]
      rfl
    | succ m0 =>
      obtain ⟨c, t, hshape, hdig, hne0⟩ := natText_pos_head (m0 + 1) (by omega)
      have hnot : ∀ d : Char, isDigitChar d = false → ¬ c = d := by
        intro d hd he
        rw [he] at hdig
        rw [hdig] at hd
        exact Bool.noConfusion hd
      rw [show intText (Int.ofNat (m0 + 1)) = natText (m0 + 1) from rfl, hshape,
        List.cons_append]
      simp only [parseVal]
      rw [skipWs_cons_false _ _ (isDigitChar_not_ws c hdig)]
      simp only []
      rw [if_neg (hnot _ (by decide)), if_neg (hnot _ (by decide)),
        if_neg (hnot _ (by decide)), if_neg (hnot _ (by decide)),
        if_neg (hnot _ (by decide)), if_neg (hnot _ (by decide))]
      rw [← List.cons_append, ← hshape,
        show natText (m0 + 1) = intText (Int.ofNat (m0 + 1)) from rfl]
      rw [parseIntTok_intText _ _ hrest]
      rfl
  | negSucc m =>
    rw [show intText (Int.negSucc m) = '-' :: natText (m + 1) from rfl, List.cons_append]
    simp only [parseVal]
    rw [skipWs_cons_false _ _ (by decide : isJsonWs '-' = false)]
    simp only []
    rw [if_neg (by decide : ¬ ('-' : Char) = '\x7b'), if_neg (by decide : ¬ ('-' : Char) = '['),
      if_neg (by decide : ¬ ('-' : Char) = '"'), if_neg (by decide : ¬ ('-' : Char) = 't'),
      if_neg (by decide : ¬ ('-' : Char) = 'f'), if_neg (by decide : ¬ ('-' : Char) = 'n')]
    rw [show ('-' :: (natText (m + 1) ++ rest) : List Char) = intText (Int.negSucc m) ++ rest
      from by rw [show intText (Int.negSucc m) = '-' :: natText (m + 1) from rfl,
        List.cons_append]]
    rw [parseIntTok_intText _ _ hrest]
    rfl

/-- A serialized string parses back, under enough fuel. -/
theorem parseVal_dump_str (f lvl : Nat) (s rest : List Char)
    (hlen : (escapeStr s).length < f) :
    parseVal (f + 1) (dumpVal (Json.str s) lvl ++ rest) = some (Json.str s, rest) := by
  rw [dumpVal_str, quoteStr, List.cons_append]
  simp only [parseVal]
  rw [skipWs_cons_false _ _ (by decide : isJsonWs '"' = false)]
  simp only []
  rw [if_neg (by decide : ¬ ('"' : Char) = '\x7b'), if_neg (by decide : ¬ ('"' : Char) = '['),
    if_pos trivial]
  rw [show (escapeStr s ++ ['"']) ++ rest = escapeStr s ++ ('"' :: rest) from by
    rw [List.append_assoc, List.singleton_append]]
  rw [parseStrBody_escape s rest f hlen]
  rfl

/-- One member step of the member scanner when the closing brace follows: the
key parses, the value is as given, and the object closes. -/
theorem parseMembers_step_close (f : Nat) (k : List Char) (v : Json)
    (acc : List (List Char × Json)) (Y T r4 : List Char)
    (hk : (escapeStr k).length < f)
    (hv : parseVal f (' ' :: Y) = some (v, T))
    (ht : skipWs T = '\x7d' :: r4) :
    parseMembers (f + 1) (quoteStr k ++ (':' :: ' ' :: Y)) acc =
      some (Json.obj (insertKey acc k v), r4) := by
  rw [quoteStr, List.cons_append]
  have h1 : parseStrBody f ((escapeStr k ++ ['"']) ++ (':' :: ' ' :: Y)) =
      some (k, ':' :: ' ' :: Y) := by
    rw [List.append_assoc, List.singleton_append]
    exact parseStrBody_escape k (':' :: ' ' :: Y) f hk
  have h2 : skipWs (':' :: ' ' :: Y) = ':' :: ' ' :: Y := skipWs_cons_false _ _ (by decide)
  simp only [parseMembers, h1, h2, hv, ht]

/-- One member step of the member scanner when a comma follows: the key
parses, the value is as given, and scanning continues past the comma. -/
theorem parseMembers_step_comma (f : Nat) (k : List Char) (v : Json)
    (acc : List (List Char × Json)) (Y T r4 : List Char)
    (hk : (escapeStr k).length < f)
    (hv : parseVal f (' ' :: Y) = some (v, T))
    (ht : skipWs T = ',' :: r4) :
    parseMembers (f + 1) (quoteStr k ++ (':' :: ' ' :: Y)) acc =
      parseMembers f (skipWs r4) (insertKey acc k v) := by
  rw [quoteStr, List.cons_append]
  have h1 : parseStrBody f ((escapeStr k ++ ['"']) ++ (':' :: ' ' :: Y)) =
      some (k, ':' :: ' ' :: Y) := by
    rw [List.append_assoc, List.singleton_append]
    exact parseStrBody_escape k (':' :: ' ' :: Y) f hk
  have h2 : skipWs (':' :: ' ' :: Y) = ':' :: ' ' :: Y := skipWs_cons_false _ _ (by decide)
  simp only [parseMembers, h1, h2, hv, ht]

set_option maxHeartbeats 2000000 in
set_option synthInstance.maxHeartbeats 1000000 in
mutual

/-- A well-formed serialized value, before a text that cannot extend a
numeral, parses back to exactly that value, under enough fuel. -/
theorem parseVal_dump (j : Json) (lvl fuel : Nat) (rest : List Char)
    (hwf : jsonWf j = true) (hfuel : (dumpVal j lvl).length < fuel)
    (hrest : stopsNum rest = true) :
    parseVal fuel (dumpVal j lvl ++ rest) = some (j, rest) := by
  obtain ⟨f, rfl⟩ : ∃ f, fuel = f + 1 := ⟨fuel - 1, by omega⟩
  cases j with
  | null => exact parseVal_dump_null f lvl rest
  | bool b =>
    cases b with
    | true => exact parseVal_dump_true f lvl rest
    | false => exact parseVal_dump_false f lvl rest
  | num i => exact parseVal_dump_num f lvl i rest hrest
  | str s =>
    refine parseVal_dump_str f lvl s rest ?_
    rw [dumpVal_str, quoteStr_length] at hfuel
    omega
  | arr xs =>
    cases xs with
    | nil => exact parseVal_dump_arrNil f lvl rest
    | cons x xs =>
      simp only [jsonWf, jsonWfElems, Bool.and_eq_true] at hwf
      obtain ⟨hwx, hwxs⟩ := hwf
      have hlen : (dumpVal x (lvl + 1)).length + (dumpElemsRest xs (lvl + 1)).length
          + (nlIndent lvl).length + 1 ≤ f := by
        rw [dumpVal_arrCons] at hfuel
        simp only [List.length_cons, List.length_append, nlIndent_length, List.length_nil,
          List.length_singleton] at hfuel
        rw [nlIndent_length]
        omega
      obtain ⟨c, t, hx, hxws, hxne⟩ := dumpVal_cons x (lvl + 1)
      rw [dumpVal_arrCons]
      rw [show ('[' :: (nlIndent (lvl + 1) ++ dumpVal x (lvl + 1) ++ dumpElemsRest xs (lvl + 1)
          ++ nlIndent lvl ++ [']'])) ++ rest =
        '[' :: (nlIndent (lvl + 1) ++ (dumpVal x (lvl + 1) ++ (dumpElemsRest xs (lvl + 1)
          ++ (nlIndent lvl ++ (']' :: rest))))) from by
        simp [List.append_assoc, List.cons_append, List.singleton_append]]
      rw [show dumpVal x (lvl + 1) ++ (dumpElemsRest xs (lvl + 1)
          ++ (nlIndent lvl ++ (']' :: rest))) =
        c :: (t ++ (dumpElemsRest xs (lvl + 1) ++ (nlIndent lvl ++ (']' :: rest)))) from by
        rw [hx, List.cons_append]]
      rw [parseVal_openBracket f (lvl + 1) c _ hxws hxne]
      rw [show c :: (t ++ (dumpElemsRest xs (lvl + 1) ++ (nlIndent lvl ++ (']' :: rest)))) =
        dumpVal x (lvl + 1) ++ (dumpElemsRest xs (lvl + 1) ++ (nlIndent lvl ++ (']' :: rest)))
        from by rw [hx, List.cons_append]]
      have hres := parseElems_dump x xs (lvl + 1) lvl f [] rest hwx hwxs hlen hrest
      rw [List.nil_append] at hres
      exact hres
  | obj ms =>
    cases ms with
    | nil => exact parseVal_dump_objNil f lvl rest
    | cons kv ms =>
      obtain ⟨k, v, rfl⟩ : ∃ a b, kv = (a, b) := ⟨kv.1, kv.2, rfl⟩
      simp only [jsonWf, jsonWfMembers, Bool.and_eq_true] at hwf
      obtain ⟨hdup, hwv, hwms⟩ := hwf
      have hlen : (escapeStr k).length + (dumpVal v (lvl + 1)).length
          + (dumpMembersRest ms (lvl + 1)).length + (nlIndent lvl).length + 4 ≤ f := by
        rw [dumpVal_objCons] at hfuel
        simp only [List.length_cons, List.length_append, nlIndent_length, quoteStr_length,
          List.length_nil, List.length_singleton] at hfuel
        rw [nlIndent_length]
        omega
      rw [dumpVal_objCons]
      rw [show ('\x7b' :: (nlIndent (lvl + 1) ++ quoteStr k ++ ':' :: ' ' ::
            dumpVal v (lvl + 1) ++ dumpMembersRest ms (lvl + 1) ++ nlIndent lvl ++ ['\x7d']))
          ++ rest =
        '\x7b' :: (nlIndent (lvl + 1) ++ ('"' :: ((escapeStr k ++ ['"']) ++ (':' :: ' ' ::
          (dumpVal v (lvl + 1) ++ (dumpMembersRest ms (lvl + 1)
            ++ (nlIndent lvl ++ ('\x7d' :: rest)))))))) from by
        rw [quoteStr]
        simp [List.append_assoc, List.cons_append, List.singleton_append]]
      rw [parseVal_openBrace]
      rw [show ('"' :: ((escapeStr k ++ ['"']) ++ (':' :: ' ' :: (dumpVal v (lvl + 1)
          ++ (dumpMembersRest ms (lvl + 1) ++ (nlIndent lvl ++ ('\x7d' :: rest))))))) =
        quoteStr k ++ (':' :: ' ' :: (dumpVal v (lvl + 1) ++ (dumpMembersRest ms (lvl + 1)
          ++ (nlIndent lvl ++ ('\x7d' :: rest))))) from by
        rw [quoteStr]
        simp [List.append_assoc, List.cons_append, List.singleton_append]]
      have hres := parseMembers_dump k v ms (lvl + 1) lvl f [] rest hwv hwms
        (by simpa using hdup) hlen hrest
      rw [List.nil_append] at hres
      exact hres
termination_by sizeOf j
decreasing_by
  all_goals subst_vars
  all_goals try simp only [Json.obj.sizeOf_spec, Json.arr.sizeOf_spec, List.cons.sizeOf_spec,
    Prod.mk.sizeOf_spec]
  all_goals omega

/-- A well-formed serialized member list, after its already parsed open brace
and first key position, parses back to the object closing at the matching
brace. -/
theorem parseMembers_dump (k : List Char) (v : Json) (ms : List (List Char × Json))
    (li lc fuel : Nat) (acc : List (List Char × Json)) (rest : List Char)
    (hwfv : jsonWf v = true) (hwfms : jsonWfMembers ms = true)
    (hkeys : noDupKeys ((acc ++ (k, v) :: ms).map Prod.fst) = true)
    (hfuel : (escapeStr k).length + (dumpVal v li).length + (dumpMembersRest ms li).length
      + (nlIndent lc).length + 4 ≤ fuel)
    (hrest : stopsNum rest = true) :
    parseMembers fuel (quoteStr k ++ (':' :: ' ' :: (dumpVal v li ++ (dumpMembersRest ms li
      ++ (nlIndent lc ++ ('\x7d' :: rest)))))) acc =
      some (Json.obj (acc ++ (k, v) :: ms), rest) := by
  obtain ⟨f, rfl⟩ : ∃ f, fuel = f + 1 := ⟨fuel - 1, by omega⟩
  have hfresh : keyMem (acc.map Prod.fst) k = false := by
    apply noDupKeys_split (acc.map Prod.fst) (ms.map Prod.fst) k
    rw [List.map_append, List.map_cons] at hkeys
    exact hkeys
  have hvstep : parseVal f (' ' :: (dumpVal v li ++ (dumpMembersRest ms li
      ++ (nlIndent lc ++ ('\x7d' :: rest))))) =
      some (v, dumpMembersRest ms li ++ (nlIndent lc ++ ('\x7d' :: rest))) := by
    rw [parseVal_ws_congr f _ (dumpVal v li ++ (dumpMembersRest ms li
      ++ (nlIndent lc ++ ('\x7d' :: rest)))) (by
        simp only [skipWs]
        rw [if_pos (by decide : isJsonWs ' ' = true)])]
    exact parseVal_dump v li f _ hwfv (by omega) (stopsNum_members_tail ms li lc _)
  cases ms with
  | nil =>
    have hT : skipWs (dumpMembersRest ([] : List (List Char × Json)) li
        ++ (nlIndent lc ++ ('\x7d' :: rest))) = '\x7d' :: rest := by
      rw [dumpMembersRest_nil, List.nil_append, skipWs_nlIndent]
      exact skipWs_cons_false _ _ (by decide)
    rw [parseMembers_step_close f k v acc _ _ rest (by omega) hvstep hT]
    rw [insertKey_fresh acc k v hfresh]
  | cons kv2 ms2 =>
    obtain ⟨k2, v2, rfl⟩ : ∃ a b, kv2 = (a, b) := ⟨kv2.1, kv2.2, rfl⟩
    simp only [jsonWfMembers, Bool.and_eq_true] at hwfms
    obtain ⟨hwv2, hwms2⟩ := hwfms
    have hT : skipWs (dumpMembersRest ((k2, v2) :: ms2) li ++ (nlIndent lc ++ ('\x7d' :: rest)))
        = ',' :: ((nlIndent li ++ quoteStr k2 ++ ':' :: ' ' :: dumpVal v2 li
          ++ dumpMembersRest ms2 li) ++ (nlIndent lc ++ ('\x7d' :: rest))) := by
      rw [dumpMembersRest_cons, List.cons_append]
      exact skipWs_cons_false _ _ (by decide)
    rw [parseMembers_step_comma f k v acc _ _ _ (by omega) hvstep hT]
    rw [insertKey_fresh acc k v hfresh]
    rw [show skipWs ((nlIndent li ++ quoteStr k2 ++ ':' :: ' ' :: dumpVal v2 li
        ++ dumpMembersRest ms2 li) ++ (nlIndent lc ++ ('\x7d' :: rest))) =
      skipWs (quoteStr k2 ++ (':' :: ' ' :: (dumpVal v2 li ++ (dumpMembersRest ms2 li
        ++ (nlIndent lc ++ ('\x7d' :: rest)))))) from by
      rw [show (nlIndent li ++ quoteStr k2 ++ ':' :: ' ' :: dumpVal v2 li
          ++ dumpMembersRest ms2 li) ++ (nlIndent lc ++ ('\x7d' :: rest)) =
        nlIndent li ++ (quoteStr k2 ++ (':' :: ' ' :: (dumpVal v2 li ++ (dumpMembersRest ms2 li
          ++ (nlIndent lc ++ ('\x7d' :: rest)))))) from by
        simp [List.append_assoc, List.cons_append, List.singleton_append]]
      rw [skipWs_nlIndent]]
    rw [skipWs_quoteStr]
    have hkeys2 : noDupKeys (((acc ++ [(k, v)]) ++ (k2, v2) :: ms2).map Prod.fst) = true := by
      rw [List.append_assoc, List.singleton_append]
      exact hkeys
    have hfl2 : (escapeStr k2).length + (dumpVal v2 li).length
        + (dumpMembersRest ms2 li).length + (nlIndent lc).length + 4 ≤ f := by
      rw [dumpMembersRest_cons] at hfuel
      simp only [List.length_cons, List.length_append, nlIndent_length,
        quoteStr_length] at hfuel
      rw [nlIndent_length]
      omega
    have hres := parseMembers_dump k2 v2 ms2 li lc f (acc ++ [(k, v)]) rest hwv2 hwms2
      hkeys2 hfl2 hrest
    rw [hres]
    rw [show (acc ++ [(k, v)]) ++ (k2, v2) :: ms2 = acc ++ (k, v) :: (k2, v2) :: ms2 from by
      rw [List.append_assoc, List.singleton_append]]
termination_by 1 + sizeOf v + sizeOf ms
decreasing_by
  all_goals subst_vars
  all_goals try simp only [Json.obj.sizeOf_spec, Json.arr.sizeOf_spec, List.cons.sizeOf_spec,
    Prod.mk.sizeOf_spec]
  all_goals omega

/-- A well-formed serialized element list, after its already parsed open
bracket, parses back to the array closing at the matching bracket. -/
theorem parseElems_dump (x : Json) (xs : List Json) (li lc fuel : Nat) (acc : List Json)
    (rest : List Char)
    (hwfx : jsonWf x = true) (hwfxs : jsonWfElems xs = true)
    (hfuel : (dumpVal x li).length + (dumpElemsRest xs li).length + (nlIndent lc).length + 1
      ≤ fuel)
    (hrest : stopsNum rest = true) :
    parseElems fuel (dumpVal x li ++ (dumpElemsRest xs li ++ (nlIndent lc ++ (']' :: rest))))
      acc = some (Json.arr (acc ++ x :: xs), rest) := by
  obtain ⟨f, rfl⟩ : ∃ f, fuel = f + 1 := ⟨fuel - 1, by omega⟩
  have hvstep : parseVal f (dumpVal x li ++ (dumpElemsRest xs li ++ (nlIndent lc
      ++ (']' :: rest)))) = some (x, dumpElemsRest xs li ++ (nlIndent lc ++ (']' :: rest))) :=
    parseVal_dump x li f _ hwfx (by have := nlIndent_length lc; omega)
      (stopsNum_elems_tail xs li lc _)
  cases xs with
  | nil =>
    have hT : skipWs (dumpElemsRest ([] : List Json) li ++ (nlIndent lc ++ (']' :: rest)))
        = ']' :: rest := by
      rw [dumpElemsRest_nil, List.nil_append, skipWs_nlIndent]
      exact skipWs_cons_false _ _ (by decide)
    simp only [parseElems, hvstep, hT]
  | cons x2 xs2 =>
    simp only [jsonWfElems, Bool.and_eq_true] at hwfxs
    obtain ⟨hwx2, hwxs2⟩ := hwfxs
    have hT : skipWs (dumpElemsRest (x2 :: xs2) li ++ (nlIndent lc ++ (']' :: rest)))
        = ',' :: ((nlIndent li ++ dumpVal x2 li ++ dumpElemsRest xs2 li)
          ++ (nlIndent lc ++ (']' :: rest))) := by
      rw [dumpElemsRest_cons, List.cons_append]
      exact skipWs_cons_false _ _ (by decide)
    simp only [parseElems, hvstep, hT]
    rw [show (nlIndent li ++ dumpVal x2 li ++ dumpElemsRest xs2 li)
        ++ (nlIndent lc ++ (']' :: rest)) =
      nlIndent li ++ (dumpVal x2 li ++ (dumpElemsRest xs2 li ++ (nlIndent lc ++ (']' :: rest))))
      from by simp [List.append_assoc, List.cons_append, List.singleton_append]]
    rw [skipWs_nlIndent]
    obtain ⟨c, t, hx2, hx2ws, hx2ne⟩ := dumpVal_cons x2 li
    rw [show dumpVal x2 li ++ (dumpElemsRest xs2 li ++ (nlIndent lc ++ (']' :: rest))) =
      c :: (t ++ (dumpElemsRest xs2 li ++ (nlIndent lc ++ (']' :: rest)))) from by
      rw [hx2, List.cons_append]]
    rw [skipWs_cons_false _ _ hx2ws]
    rw [show c :: (t ++ (dumpElemsRest xs2 li ++ (nlIndent lc ++ (']' :: rest)))) =
      dumpVal x2 li ++ (dumpElemsRest xs2 li ++ (nlIndent lc ++ (']' :: rest))) from by
      rw [hx2, List.cons_append]]
    have hfl2 : (dumpVal x2 li).length + (dumpElemsRest xs2 li).length
        + (nlIndent lc).length + 1 ≤ f := by
      rw [dumpElemsRest_cons] at hfuel
      simp only [List.length_cons, List.length_append, nlIndent_length] at hfuel
      rw [nlIndent_length]
      omega
    have hres := parseElems_dump x2 xs2 li lc f (acc ++ [x]) rest hwx2 hwxs2 hfl2 hrest
    rw [hres]
    rw [show (acc ++ [x]) ++ x2 :: xs2 = acc ++ x :: x2 :: xs2 from by
      rw [List.append_assoc, List.singleton_append]]
termination_by 1 + sizeOf x + sizeOf xs
decreasing_by
  all_goals subst_vars
  all_goals try simp only [Json.obj.sizeOf_spec, Json.arr.sizeOf_spec, List.cons.sizeOf_spec,
    Prod.mk.sizeOf_spec]
  all_goals omega

end

/-- Member-list well-formedness is well-formedness of every member value. -/
theorem jsonWfMembers_iff_forall (ms : List (List Char × Json)) :
    jsonWfMembers ms = true ↔ ∀ kv ∈ ms, jsonWf kv.2 = true := by
  induction ms with
  | nil => simp [jsonWfMembers]
  | cons kv ms ih =>
    simp only [jsonWfMembers, Bool.and_eq_true, ih, List.mem_cons]
    constructor
    · rintro ⟨h1, h2⟩ x hx
      rcases hx with rfl | hx
      · exact h1
      · exact h2 x hx
    · intro hall
      exact ⟨hall kv (Or.inl rfl), fun x hx => hall x (Or.inr hx)⟩

/-- Element-list well-formedness is well-formedness of every element. -/
theorem jsonWfElems_iff_forall (xs : List Json) :
    jsonWfElems xs = true ↔ ∀ x ∈ xs, jsonWf x = true := by
  induction xs with
  | nil => simp [jsonWfElems]
  | cons y xs ih =>
    simp only [jsonWfElems, Bool.and_eq_true, ih, List.mem_cons]
    constructor
    · rintro ⟨h1, h2⟩ x hx
      rcases hx with rfl | hx
      · exact h1
      · exact h2 x hx
    · intro hall
      exact ⟨hall y (Or.inl rfl), fun x hx => hall x (Or.inr hx)⟩

/-- The keys after an insertion are the old keys together with the new one. -/
theorem keyMem_insertKey (acc : List (List Char × Json)) (k : List Char) (v : Json)
    (x : List Char) :
    keyMem ((insertKey acc k v).map Prod.fst) x =
      if k = x then true else keyMem (acc.map Prod.fst) x := by
  induction acc with
  | nil => rfl
  | cons kv acc ih =>
    obtain ⟨k0, v0⟩ := kv
    by_cases hk : k0 = k
    · subst hk
      simp only [insertKey, if_pos rfl, List.map_cons, keyMem]
      by_cases hx : k0 = x
      · simp only [if_pos hx]
      · simp only [if_neg hx]
    · simp only [insertKey, if_neg hk, List.map_cons, keyMem, ih]
      by_cases hx0 : k0 = x <;> by_cases hx1 : k = x <;> simp [hx0, hx1]

/-- Insertion with the update rule keeps the key list duplicate-free. -/
theorem insertKey_keys_noDup (acc : List (List Char × Json)) (k : List Char) (v : Json)
    (h : noDupKeys (acc.map Prod.fst) = true) :
    noDupKeys ((insertKey acc k v).map Prod.fst) = true := by
  induction acc with
  | nil => rfl
  | cons kv acc ih =>
    obtain ⟨k0, v0⟩ := kv
    simp only [List.map_cons, noDupKeys, Bool.and_eq_true, Bool.not_eq_true'] at h
    obtain ⟨h1, h2⟩ := h
    by_cases hk : k0 = k
    · simp only [insertKey, if_pos hk, List.map_cons, noDupKeys, Bool.and_eq_true,
        Bool.not_eq_true']
      exact ⟨h1, h2⟩
    · simp only [insertKey, if_neg hk, List.map_cons, noDupKeys, Bool.and_eq_true,
        Bool.not_eq_true', keyMem_insertKey]
      refine ⟨?_, ih h2⟩
      rw [if_neg (fun he => hk he.symm)]
      exact h1

/-- Insertion of a well-formed value among well-formed values leaves every
member value well-formed. -/
theorem insertKey_values_wf (k : List Char) (v : Json) (hv : jsonWf v = true) :
    ∀ (acc : List (List Char × Json)), (∀ kv ∈ acc, jsonWf kv.2 = true) →
      ∀ kv ∈ insertKey acc k v, jsonWf kv.2 = true := by
  intro acc
  induction acc with
  | nil =>
    intro _ kv hkv
    simp only [insertKey, List.mem_singleton] at hkv
    subst hkv
    exact hv
  | cons kv0 acc ih =>
    obtain ⟨k0, v0⟩ := kv0
    intro hacc kv hkv
    by_cases hk : k0 = k
    · simp only [insertKey, if_pos hk, List.mem_cons] at hkv
      rcases hkv with rfl | hkv
      · exact hv
      · exact hacc kv (List.mem_cons_of_mem _ hkv)
    · simp only [insertKey, if_neg hk, List.mem_cons] at hkv
      rcases hkv with rfl | hkv
      · exact hacc (k0, v0) (List.mem_cons_self _ _)
      · exact ih (fun x hx => hacc x (List.mem_cons_of_mem _ hx)) kv hkv

/-- Pointwise property of a list extended by one element at the end. -/
theorem forall_mem_append_singleton {α : Type} (P : α → Prop) (acc : List α) (v : α)
    (hacc : ∀ x ∈ acc, P x) (hv : P v) : ∀ x ∈ acc ++ [v], P x := by
  intro x hx
  rcases List.mem_append.1 hx with h1 | h1
  · exact hacc x h1
  · rw [List.mem_singleton.1 h1]
    exact hv

set_option maxHeartbeats 1000000 in
mutual

/-- Whatever the value scanner returns is well-formed: every object it ever
builds goes through the duplicate-collapsing insertion. -/
theorem parseVal_wf (fuel : Nat) (s r : List Char) (j : Json)
    (h : parseVal fuel s = some (j, r)) : jsonWf j = true := by
  cases fuel with
  | zero => exact Option.noConfusion h
  | succ f =>
    simp only [parseVal] at h
    repeat' split at h
    all_goals try exact Option.noConfusion h
    all_goals try exact parseMembers_wf f _ [] j r rfl (fun kv hkv => absurd hkv (List.not_mem_nil kv)) h
    all_goals try exact parseElems_wf f _ [] j r (fun x hx => absurd hx (List.not_mem_nil x)) h
    all_goals try (simp only [Option.some.injEq, Prod.mk.injEq] at h; obtain ⟨h1, h2⟩ := h; subst h1; simp [jsonWf, noDupKeys, jsonWfMembers, jsonWfElems])
    all_goals simp only [Option.map_eq_some'] at h
    all_goals obtain ⟨p, hp, hfp⟩ := h
    all_goals simp only [Prod.mk.injEq] at hfp
    all_goals obtain ⟨h1, h2⟩ := hfp
    all_goals subst h1
    all_goals simp [jsonWf]

/-- Whatever the member scanner returns over a well-formed accumulator is
well-formed. -/
theorem parseMembers_wf (fuel : Nat) (s : List Char) (acc : List (List Char × Json))
    (j : Json) (r : List Char)
    (hacc1 : noDupKeys (acc.map Prod.fst) = true)
    (hacc2 : ∀ kv ∈ acc, jsonWf kv.2 = true)
    (h : parseMembers fuel s acc = some (j, r)) : jsonWf j = true := by
  cases fuel with
  | zero => exact Option.noConfusion h
  | succ f =>
    simp only [parseMembers] at h
    repeat' split at h
    all_goals try exact Option.noConfusion h
    all_goals try exact parseMembers_wf f _ _ j r (insertKey_keys_noDup _ _ _ hacc1) (insertKey_values_wf _ _ (parseVal_wf f _ _ _ (by assumption)) _ hacc2) h
    all_goals simp only [Option.some.injEq, Prod.mk.injEq] at h
    all_goals obtain ⟨h1, h2⟩ := h
    all_goals subst h1
    all_goals simp only [jsonWf, Bool.and_eq_true]
    all_goals exact ⟨insertKey_keys_noDup _ _ _ hacc1, (jsonWfMembers_iff_forall _).2 (insertKey_values_wf _ _ (parseVal_wf f _ _ _ (by assumption)) _ hacc2)⟩

/-- Whatever the element scanner returns over well-formed accumulated
elements is well-formed. -/
theorem parseElems_wf (fuel : Nat) (s : List Char) (acc : List Json) (j : Json)
    (r : List Char)
    (hacc : ∀ x ∈ acc, jsonWf x = true)
    (h : parseElems fuel s acc = some (j, r)) : jsonWf j = true := by
  cases fuel with
  | zero => exact Option.noConfusion h
  | succ f =>
    simp only [parseElems] at h
    repeat' split at h
    all_goals try exact Option.noConfusion h
    all_goals try exact parseElems_wf f _ (acc ++ [_]) j r (forall_mem_append_singleton _ acc _ hacc (parseVal_wf f _ _ _ (by assumption))) h
    all_goals simp only [Option.some.injEq, Prod.mk.injEq] at h
    all_goals obtain ⟨h1, h2⟩ := h
    all_goals subst h1
    all_goals simp only [jsonWf]
    all_goals exact (jsonWfElems_iff_forall _).2 (forall_mem_append_singleton _ acc _ hacc (parseVal_wf f _ _ _ (by assumption)))

end

/-- C4: For every stored AnalysisResult — any record the Response Parser ever
produces with json.loads — the JSON text produced by the Download Report
action, parsed back, is deeply equal to the in-memory record: the
serialize-then-parse round trip is the identity. -/
theorem download_report_roundtrip (s : List Char) (j : Json)
    (hstore : json_loads s = some j) :
    json_loads (downloadReport j) = some j := by
  have hwf : jsonWf j = true := by
    simp only [json_loads] at hstore
    split at hstore
    · rename_i j0 rest heq
      split at hstore
      · simp only [Option.some.injEq] at hstore
        subst hstore
        exact parseVal_wf _ _ _ _ heq
      · exact Option.noConfusion hstore
    · exact Option.noConfusion hstore
  have h := parseVal_dump j 0 ((dumpVal j 0).length + 1) [] hwf (by omega) rfl
  rw [List.append_nil] at h
  rw [show downloadReport j = dumpVal j 0 from rfl]
  simp only [json_loads, h]
  rfl

set_option maxRecDepth 40000 in
/-- Witness: a concrete parsed record round-trips through the download
serialization identically. -/
theorem download_report_roundtrip_witness :
    json_loads (("\x7b\"a\": [1, true]\x7d").data) =
      some (Json.obj [(("a").data, Json.arr [Json.num 1, Json.bool true])]) ∧
    json_loads (downloadReport (Json.obj [(("a").data, Json.arr [Json.num 1, Json.bool true])]))
      = some (Json.obj [(("a").data, Json.arr [Json.num 1, Json.bool true])]) :=
  ⟨rfl, download_report_roundtrip (("\x7b\"a\": [1, true]\x7d").data) _ rfl⟩

end SolarApp
